import Mathlib

/-!
Verification development for the streaming tool-call orchestrator of the
gamemaster client (`composables/useChatStream.ts`, `composables/useToolCalling.ts`,
`server/api/chat/session.post.ts`, `server/api/chat/stream.get.ts`).

The definitions below are a shallow embedding of the TypeScript source.  The
JavaScript builtins `JSON.parse` and `JSON.stringify` are external to the
repository and are passed in as function parameters (`parse`, `stringify`);
the MCP tool runtime (`client.callTool`) is likewise a parameter.
-/

namespace GMClient

/-- JSON values as handled by the JavaScript runtime (numbers restricted to
integers, which covers every value the orchestrator manipulates). -/
inductive Json where
  | null
  | bool (b : Bool)
  | num (n : Int)
  | str (s : String)
  | arr (items : List Json)
  | obj (fields : List (String × Json))
deriving Repr

mutual

/-- Decidable equality on JSON values (written by hand because of the nesting). -/
def Json.decEq : (a b : Json) → Decidable (a = b)
  | .null, .null => .isTrue rfl
  | .bool x, .bool y =>
    if h : x = y then .isTrue (by rw [h]) else .isFalse (fun hh => h (Json.bool.inj hh))
  | .num x, .num y =>
    if h : x = y then .isTrue (by rw [h]) else .isFalse (fun hh => h (Json.num.inj hh))
  | .str x, .str y =>
    if h : x = y then .isTrue (by rw [h]) else .isFalse (fun hh => h (Json.str.inj hh))
  | .arr x, .arr y =>
    match Json.decEqList x y with
    | .isTrue h => .isTrue (by rw [h])
    | .isFalse h => .isFalse (fun hh => h (Json.arr.inj hh))
  | .obj x, .obj y =>
    match Json.decEqFields x y with
    | .isTrue h => .isTrue (by rw [h])
    | .isFalse h => .isFalse (fun hh => h (Json.obj.inj hh))
  | .null, .bool _ | .null, .num _ | .null, .str _ | .null, .arr _ | .null, .obj _
  | .bool _, .null | .bool _, .num _ | .bool _, .str _ | .bool _, .arr _ | .bool _, .obj _
  | .num _, .null | .num _, .bool _ | .num _, .str _ | .num _, .arr _ | .num _, .obj _
  | .str _, .null | .str _, .bool _ | .str _, .num _ | .str _, .arr _ | .str _, .obj _
  | .arr _, .null | .arr _, .bool _ | .arr _, .num _ | .arr _, .str _ | .arr _, .obj _
  | .obj _, .null | .obj _, .bool _ | .obj _, .num _ | .obj _, .str _ | .obj _, .arr _ =>
    .isFalse (fun h => Json.noConfusion h)

/-- Decidable equality on lists of JSON values. -/
def Json.decEqList : (a b : List Json) → Decidable (a = b)
  | [], [] => .isTrue rfl
  | [], _ :: _ => .isFalse (fun h => List.noConfusion h)
  | _ :: _, [] => .isFalse (fun h => List.noConfusion h)
  | x :: xs, y :: ys =>
    match Json.decEq x y, Json.decEqList xs ys with
    | .isTrue h1, .isTrue h2 => .isTrue (by rw [h1, h2])
    | .isFalse h1, _ => .isFalse (fun h => h1 (List.cons.inj h).1)
    | _, .isFalse h2 => .isFalse (fun h => h2 (List.cons.inj h).2)

/-- Decidable equality on JSON object field lists. -/
def Json.decEqFields : (a b : List (String × Json)) → Decidable (a = b)
  | [], [] => .isTrue rfl
  | [], _ :: _ => .isFalse (fun h => List.noConfusion h)
  | _ :: _, [] => .isFalse (fun h => List.noConfusion h)
  | (k, v) :: xs, (k', v') :: ys =>
    match String.decEq k k', Json.decEq v v', Json.decEqFields xs ys with
    | .isTrue h0, .isTrue h1, .isTrue h2 => .isTrue (by rw [h0, h1, h2])
    | .isFalse h0, _, _ =>
      .isFalse (fun h => h0 (congrArg Prod.fst (List.cons.inj h).1))
    | _, .isFalse h1, _ =>
      .isFalse (fun h => h1 (congrArg Prod.snd (List.cons.inj h).1))
    | _, _, .isFalse h2 => .isFalse (fun h => h2 (List.cons.inj h).2)

end

instance : DecidableEq Json := Json.decEq

/-- JavaScript truthiness of a JSON value: `null`, `false`, `0` and the empty
string are falsy, everything else (including `[]` and an empty object) is truthy. -/
def jsTruthy : Json → Bool
  | .null => false
  | .bool b => b
  | .num n => n != 0
  | .str s => s != ""
  | .arr _ => true
  | .obj _ => true

/-- First binding of a key in a JSON object's field list (JS property access). -/
def objGet (k : String) : List (String × Json) → Option Json
  | [] => none
  | (k', v) :: rest => if k' = k then some v else objGet k rest

/-- Property access `v[k]` on a JSON value; `none` plays the role of `undefined`. -/
def getField (k : String) : Json → Option Json
  | .obj fields => objGet k fields
  | _ => none

/-- The opening-brace character, by code point. -/
def openBraceChar : Char := Char.ofNat 123

/-- The closing-brace character, by code point. -/
def closeBraceChar : Char := Char.ofNat 125

/-- Number of occurrences of a character in a string, the model of the
`(s.match(regex) || []).length` idiom used for brace counting. -/
def countChar (c : Char) (s : String) : Nat := s.toList.count c

/-- JavaScript `String.prototype.startsWith`, as a character-level prefix
test. -/
def strStartsWith (s pre : String) : Bool := pre.toList.isPrefixOf s.toList

/-- JavaScript `String.prototype.trim`: strip whitespace from both ends. -/
def jsTrim (s : String) : String :=
  ⟨(((s.toList.dropWhile Char.isWhitespace).reverse).dropWhile Char.isWhitespace).reverse⟩

/-- Replace the first occurrence of `pat` (JavaScript `String.replace` with a
string pattern), at the character-list level. -/
def replaceFirstList (pat repl : List Char) : List Char → List Char
  | [] => []
  | c :: rest =>
    if pat.isPrefixOf (c :: rest) then repl ++ List.drop pat.length (c :: rest)
    else c :: replaceFirstList pat repl rest

/-- State of one in-flight tool call being assembled from stream events
(the values of the `activeToolCalls` map in `openToolAwareChatStream`). -/
structure PendingCall where
  id : String
  name : String
  input : Json
  inputJson : String
  complete : Bool
  inputComplete : Bool
deriving Repr, DecidableEq

/-- Insertion-ordered map from call id to pending call: a JavaScript `Map`. -/
abbrev CallMap := List (String × PendingCall)

/-- JavaScript `Map.set`: overwrite in place when the key exists, else append. -/
def mapSet (k : String) (v : PendingCall) : CallMap → CallMap
  | [] => [(k, v)]
  | (k', v') :: rest => if k' = k then (k, v) :: rest else (k', v') :: mapSet k v rest

/-- Record keyed by a numeric output index (`pendingDeltas` / `finalArgumentsByIndex`). -/
abbrev DeltaMap := List (Nat × String)

/-- Lookup by output index. -/
def deltaGet (i : Nat) : DeltaMap → Option String
  | [] => none
  | (j, s) :: rest => if j = i then some s else deltaGet i rest

/-- Update by output index, keeping insertion order. -/
def deltaSet (i : Nat) (s : String) : DeltaMap → DeltaMap
  | [] => [(i, s)]
  | (j, t) :: rest => if j = i then (i, s) :: rest else (j, t) :: deltaSet i s rest

/-- Per-iteration assembler state of `openToolAwareChatStream`: the map of
active tool calls, the `hasToolCalls` flag and the vendor-B positional buffers. -/
structure AssemblerState where
  activeToolCalls : CallMap
  hasToolCalls : Bool
  pendingDeltas : DeltaMap
  finalArgumentsByIndex : DeltaMap
deriving Repr, DecidableEq

/-- Fresh assembler state at the start of an iteration. -/
def AssemblerState.init : AssemblerState :=
  { activeToolCalls := [], hasToolCalls := false, pendingDeltas := [], finalArgumentsByIndex := [] }

/-- One element of the `output` array of a vendor-B `response_completed` event. -/
inductive OutputItem where
  | functionCall (callId name arguments : String)
  | other
deriving Repr, DecidableEq

/-- The tool-use events dispatched to `onToolUseEvent` in `useChatStream.ts`:
vendor-A (`tool_use_start` / `tool_input_delta` / `tool_use_complete`) and
vendor-B (`function_call_arguments_delta` / `function_call_arguments_done` /
`response_completed`). -/
inductive ToolUseEventData where
  | toolUseStart (id name : String) (input : Option Json)
  | toolInputDelta (deltaJson : String)
  | toolUseComplete
  | fnArgsDelta (outputIndex : Nat) (delta : String)
  | fnArgsDone (outputIndex : Nat) (arguments : String)
  | responseCompleted (output : List OutputItem)
deriving Repr, DecidableEq

/-- A call may still receive input fragments: `!toolCall.complete && !toolCall.inputComplete`. -/
def eligible (c : PendingCall) : Bool := !c.complete && !c.inputComplete

/-- Append one fragment to a call's accumulated JSON and re-check brace balance:
the accumulated string is marked complete when it holds at least one opening
brace and the open and close counts agree. -/
def applyDelta (frag : String) (c : PendingCall) : PendingCall :=
  let j := c.inputJson ++ frag
  let opens := countChar openBraceChar j
  let closes := countChar closeBraceChar j
  { c with inputJson := j,
           inputComplete := if 0 < opens ∧ opens = closes then true else c.inputComplete }

/-- Route a fragment to the most recently started eligible call.  The source
walks the whole `activeToolCalls` map keeping the last eligible entry as
`targetToolCall` (it deliberately does not break out of the loop), then mutates
that entry in place; here the walk is from the tail so the last eligible entry
wins.  The boolean reports whether a target was found. -/
def appendToLastEligible (frag : String) : CallMap → CallMap × Bool
  | [] => ([], false)
  | (k, c) :: rest =>
    let r := appendToLastEligible frag rest
    if r.2 then ((k, c) :: r.1, true)
    else if eligible c then ((k, applyDelta frag c) :: rest, true)
    else ((k, c) :: rest, false)

/-- Handling of `tool_use_complete` for one call: mark it complete and, when it
holds accumulated deltas not yet marked complete, parse them (a parse failure
still marks the input complete and keeps the original input). -/
def finalizeAtComplete (parse : String → Except String Json) (c : PendingCall) : PendingCall :=
  let c' : PendingCall := { c with complete := true }
  if c'.inputJson != "" && !c'.inputComplete then
    match parse c'.inputJson with
    | .ok v => { c' with input := v, inputComplete := true }
    | .error _ => { c' with inputComplete := true }
  else c'

/-- Result of `JSON.parse` with the source's `catch` fallback to `{}`. -/
def parsedOf (parse : String → Except String Json) (s : String) : Json :=
  match parse s with
  | .ok v => v
  | .error _ => Json.obj []

/-- Processing of one `response_completed` output item at its array index:
function-call items mint a complete pending call keyed by the item's `call_id`,
with the buffered positional deltas attached as `inputJson`. -/
def applyOutputItem (parse : String → Except String Json) (pendingDeltas : DeltaMap)
    (item : OutputItem) (index : Nat) (m : CallMap) : CallMap :=
  match item with
  | .other => m
  | .functionCall callId name arguments =>
    mapSet callId
      { id := callId, name := name, input := parsedOf parse arguments,
        inputJson := (deltaGet index pendingDeltas).getD "",
        complete := true, inputComplete := true } m

/-- Fold of `applyOutputItem` over the whole `output` array (`forEach` with index). -/
def applyOutputItems (parse : String → Except String Json) (pendingDeltas : DeltaMap) :
    List OutputItem → Nat → CallMap → CallMap
  | [], _, m => m
  | item :: rest, i, m =>
    applyOutputItems parse pendingDeltas rest (i + 1) (applyOutputItem parse pendingDeltas item i m)

/-- One step of the `onToolUseEvent` callback of `openToolAwareChatStream`. -/
def handleEvent (parse : String → Except String Json) (st : AssemblerState) :
    ToolUseEventData → AssemblerState
  | .toolUseStart id name input =>
    let initInput := match input with
      | some v => if jsTruthy v then v else Json.obj []
      | none => Json.obj []
    { st with hasToolCalls := true,
              activeToolCalls :=
                mapSet id
                  { id := id, name := name, input := initInput, inputJson := "",
                    complete := false, inputComplete := false } st.activeToolCalls }
  | .toolInputDelta frag =>
    if frag != "" then
      { st with activeToolCalls := (appendToLastEligible frag st.activeToolCalls).1 }
    else st
  | .toolUseComplete =>
    { st with activeToolCalls :=
        st.activeToolCalls.map (fun kc => (kc.1, finalizeAtComplete parse kc.2)) }
  | .fnArgsDelta i d =>
    { st with hasToolCalls := true,
              pendingDeltas := deltaSet i ((deltaGet i st.pendingDeltas).getD "" ++ d) st.pendingDeltas }
  | .fnArgsDone i args =>
    if (deltaGet i st.finalArgumentsByIndex).getD "" == "" then
      { st with finalArgumentsByIndex := deltaSet i args st.finalArgumentsByIndex }
    else st
  | .responseCompleted output =>
    { st with activeToolCalls := applyOutputItems parse st.pendingDeltas output 0 st.activeToolCalls }

/-- Fold of `handleEvent` over a delivered event sequence. -/
def runEvents (parse : String → Except String Json) (events : List ToolUseEventData)
    (st : AssemblerState) : AssemblerState :=
  events.foldl (handleEvent parse) st

/-- Final re-parse applied to every assembled call once the stream has ended:
mark complete and, when deltas were accumulated, parse them (keeping the
previous input on failure). -/
def finalizePending (parse : String → Except String Json) (c : PendingCall) : PendingCall :=
  let c' : PendingCall := { c with complete := true }
  if c'.inputJson != "" then
    match parse c'.inputJson with
    | .ok v => { c' with input := v }
    | .error _ => c'
  else c'

/-- A completed tool call handed to the execution gateway.  The source shape is
`\x7bid, type: 'function', function: \x7bname, arguments\x7d\x7d`; the constant
`type` tag is dropped and the `function` object flattened. -/
structure ToolCall where
  id : String
  name : String
  arguments : String
deriving Repr, DecidableEq

/-- Assembly of the `completedToolCalls` array after the stream ends: finalize
every active call in map order, skip entries with a falsy id or name, and
serialize the parsed input back to an arguments string. -/
def completedToolCalls (parse : String → Except String Json) (stringify : Json → String)
    (m : CallMap) : List ToolCall :=
  ((m.map (fun kc => finalizePending parse kc.2)).filter
      (fun c => c.id != "" && c.name != "")).map
    (fun c => { id := c.id, name := c.name, arguments := stringify c.input })

/-- A tool execution result (`ToolResult` in `useToolCalling.ts`). -/
structure ToolResult where
  tool_call_id : String
  content : String
deriving Repr, DecidableEq

/-- Outcome of `client.callTool` against the MCP runtime: either the call threw
(with the caught error's message) or it returned a result value. -/
inductive McpCallResult where
  | thrown (message : String)
  | value (result : Json)

/-- Conversion of an MCP call result to the string stored in the tool result
(`executeMcpTools`, the `content` computation): a string is kept as is; an
object-like value is probed for `content[0].text`, then for a string `text`
field, else pretty-printed; primitives are coerced as JavaScript `String(x)`. -/
def mcpContentString (stringify : Json → String) (result : Json) : String :=
  match result with
  | .str s => s
  | .arr _ | .obj _ =>
    let rc := match getField "content" result with
      | some Json.null => result
      | some c => c
      | none => result
    let firstText : Option Json := match rc with
      | .arr (first :: _) =>
        match getField "text" first with
        | some t => if jsTruthy t then some t else none
        | none => none
      | _ => none
    match firstText with
    | some (.str s) => s
    | some t => stringify t
    | none =>
      match getField "text" rc with
      | some (.str s) => s
      | _ => stringify result
  | .null => "null"
  | .bool b => if b then "true" else "false"
  | .num n => toString n

/-- Body of the `for (const toolCall of toolCalls)` loop of `executeMcpTools`:
arguments failing JSON validation yield a structured parse-error result, a
throwing tool invocation yields an `Error`-prefixed result, otherwise the MCP
result is converted to string content. -/
def executeOneTool (parse : String → Except String Json) (stringify : Json → String)
    (callTool : String → Json → McpCallResult) (tc : ToolCall) : ToolResult :=
  match parse tc.arguments with
  | .error e =>
    { tool_call_id := tc.id, content := "Error parsing tool arguments: " ++ e }
  | .ok args =>
    match callTool tc.name args with
    | .thrown msg =>
      { tool_call_id := tc.id, content := "Error executing tool " ++ tc.name ++ ": " ++ msg }
    | .value r =>
      { tool_call_id := tc.id, content := mcpContentString stringify r }

/-- The tool execution gateway `executeMcpTools`: push one result per call onto
the results array, in call order. -/
def executeMcpTools (parse : String → Except String Json) (stringify : Json → String)
    (callTool : String → Json → McpCallResult) (calls : List ToolCall) : List ToolResult :=
  calls.foldl (fun results tc => results ++ [executeOneTool parse stringify callTool tc]) []

/-- The whole gateway including its first statement
`const client = await getClient()`: acquiring the MCP client happens outside
the per-call `try`, so a rejection there propagates out of `executeMcpTools`
uncaught, before any call is processed. -/
def executeMcpToolsFull (getClient : Except String (String → Json → McpCallResult))
    (parse : String → Except String Json) (stringify : Json → String)
    (calls : List ToolCall) : Except String (List ToolResult) :=
  match getClient with
  | .error e => .error e
  | .ok callTool => .ok (executeMcpTools parse stringify callTool calls)

/-- One content block of a vendor-A structured message. -/
inductive ContentBlock where
  | text (text : String)
  | toolUse (id name : String) (input : Json)
  | toolResult (toolUseId content : String)
deriving Repr, DecidableEq

/-- A wire message of the growing conversation: plain role/content messages,
vendor-A block messages, and vendor-B standalone function-call records. -/
inductive Msg where
  | plain (role content : String)
  | blocks (role : String) (content : List ContentBlock)
  | functionCall (id callId name arguments : String)
  | functionCallOutput (callId output : String)
deriving Repr, DecidableEq

/-- Return value of `formatToolMessages`. -/
structure FormattedMsgs where
  assistantMessage : Msg
  toolResultMessages : List Msg
deriving Repr, DecidableEq

/-- JavaScript `String.replace` with a plain string pattern: replace only the
first occurrence. -/
def replaceFirst (s pat repl : String) : String :=
  ⟨replaceFirstList pat.toList repl.toList s.toList⟩

/-- The vendor-A `toolCalls.forEach` push of `tool_use` blocks, each carrying
`JSON.parse(toolCall.function.arguments)`; a parse failure is the thrown
exception, propagated as `Except.error`. -/
def buildToolUseBlocks (parse : String → Except String Json) :
    List ToolCall → Except String (List ContentBlock)
  | [] => .ok []
  | tc :: rest =>
    match parse tc.arguments with
    | .error e => .error e
    | .ok v =>
      match buildToolUseBlocks parse rest with
      | .error e => .error e
      | .ok bs => .ok (ContentBlock.toolUse tc.id tc.name v :: bs)

/-- The vendor-B `toolResults.forEach` push of `function_call_output` records;
a falsy `tool_call_id` is the thrown exception. -/
def buildFunctionCallOutputs : List ToolResult → Except String (List Msg)
  | [] => .ok []
  | r :: rest =>
    if r.tool_call_id = "" then .error "Missing tool_call_id in tool result"
    else
      match buildFunctionCallOutputs rest with
      | .error e => .error e
      | .ok ms => .ok (Msg.functionCallOutput r.tool_call_id r.content :: ms)

/-- The message format adapter `formatToolMessages`.  For vendor A the
assistant turn is one message of blocks (optional text block, then one
`tool_use` block per call, re-parsing its serialized arguments) followed by a
single reversed-role message of `tool_result` blocks; for vendor B the
assistant text is a plain message and each call / result becomes a standalone
`function_call` / `function_call_output` record.  `Except.error` models the
exceptions the source can throw (a `JSON.parse` failure, a missing
`tool_call_id`). -/
def formatToolMessages (parse : String → Except String Json)
    (fullResponse : String) (toolCalls : List ToolCall) (toolResults : List ToolResult)
    (baseProvider : String) : Except String FormattedMsgs :=
  if baseProvider = "anthropic" then
    match buildToolUseBlocks parse toolCalls with
    | .error e => .error e
    | .ok toolUseBlocks =>
      let content :=
        (if jsTrim fullResponse != "" then [ContentBlock.text fullResponse] else [])
          ++ toolUseBlocks
      let toolResultContent :=
        toolResults.map (fun r => ContentBlock.toolResult r.tool_call_id r.content)
      .ok { assistantMessage := .blocks "assistant" content,
            toolResultMessages := [.blocks "user" toolResultContent] }
  else
    let functionCallMessages := toolCalls.map (fun tc =>
      Msg.functionCall ("fc_" ++ replaceFirst tc.id "call_" "") tc.id tc.name tc.arguments)
    match buildFunctionCallOutputs toolResults with
    | .error e => .error e
    | .ok functionCallOutputMessages =>
      .ok { assistantMessage := .plain "assistant" fullResponse,
            toolResultMessages := functionCallMessages ++ functionCallOutputMessages }

/-- The request payload threaded through the loop: provider selection plus the
growing conversation (`messages`, and for vendor B the `input` array). -/
structure Payload where
  provider : String
  providerMode : String
  messages : List Msg
  input : Option (List Msg)
deriving Repr, DecidableEq

/-- Base provider selection
`currentPayload.provider || currentPayload.providerMode?.split('-')[0]`
(the empty string is falsy). -/
def baseProviderOf (p : Payload) : String :=
  if p.provider != "" then p.provider
  else ⟨p.providerMode.toList.takeWhile (fun c => c != Char.ofNat 45)⟩

/-- The truthiness filter `item.role && item.content` used when rebuilding
`messages` from the vendor-B input array; a block list is an array and hence
always truthy, standalone function-call records have no `role` field. -/
def hasRoleAndContent : Msg → Bool
  | .plain role content => role != "" && content != ""
  | .blocks role _ => role != ""
  | .functionCall _ _ _ _ => false
  | .functionCallOutput _ _ => false

/-- What one streamed model turn delivers to the loop: the accumulated
assistant text, the `hasToolCalls` flag, and the assembled completed tool
calls.  The model backend is nondeterministic, so the loop is parametric in
this oracle. -/
structure IterOut where
  fullText : String
  hasToolCalls : Bool
  completedCalls : List ToolCall
deriving Repr, DecidableEq

/-- Failure signature of a call: `name:arguments` as in
`toolSignature` of `openToolAwareChatStream`. -/
def sigOf (tc : ToolCall) : String := tc.name ++ ":" ++ tc.arguments

/-- `Set.add`: append the element unless already present. -/
def setAdd (l : List String) (s : String) : List String := if s ∈ l then l else l ++ [s]

/-- Failure tracking after tool execution: for every result whose content
starts with `Error`, add the signature of the call at the same index. -/
def updateFailed (failed : List String) (calls : List ToolCall) (results : List ToolResult) :
    List String :=
  (results.zip calls).foldl
    (fun acc rc => if strStartsWith rc.1.content "Error" then setAdd acc (sigOf rc.2) else acc)
    failed

/-- Payload update for the next iteration: vendor A appends the assistant turn
and the tool-result message to `messages`; vendor B extends the `input` array
(falling back to the existing messages when absent) and rebuilds `messages` by
the role/content truthiness filter. -/
def appendTurns (p : Payload) (fullText : String) (f : FormattedMsgs) : Payload :=
  if baseProviderOf p = "anthropic" then
    { p with messages := p.messages ++ [f.assistantMessage] ++ f.toolResultMessages }
  else
    let existingInput := match p.input with
      | some l => l
      | none => p.messages
    let newInput := (existingInput ++ [Msg.plain "assistant" fullText]) ++ f.toolResultMessages
    { p with input := some newInput, messages := newInput.filter hasRoleAndContent }

/-- Observational record of one loop iteration that reached the tool-call
processing stage. -/
structure IterTrace where
  payloadBefore : Payload
  failedBefore : List String
  completed : List ToolCall
  executed : List ToolCall
  results : List ToolResult
  failedAfter : List String
deriving Repr, DecidableEq

/-- Why the loop stopped: no tool calls in the last turn, no valid completed
call, every candidate previously failed (loop break), iteration ceiling, or an
exception thrown while formatting (caught by the outer `try`). -/
inductive StopReason where
  | noToolCalls
  | noCompleted
  | loopBreak
  | maxIterations
  | formatError (e : String)
deriving Repr, DecidableEq

/-- Result of a whole orchestration run; `doneCalled` mirrors the `finally`
block that always invokes `opts.onDone`. -/
structure LoopResult where
  payload : Payload
  trace : List IterTrace
  stop : StopReason
  iterations : Nat
  doneCalled : Bool
deriving Repr, DecidableEq

/-- The `while` loop of `openToolAwareChatStream`: `fuel` is the number of
iterations still allowed under `maxIterations`, `iter` the number already run,
`failed` the run's failure-signature set and `acc` the reversed trace so far. -/
def loopGo (parse : String → Except String Json) (stringify : Json → String)
    (callTool : String → Json → McpCallResult)
    (oracle : Payload → Nat → IterOut) :
    Nat → Nat → Payload → List String → List IterTrace → LoopResult
  | 0, iter, p, _, acc =>
    { payload := p, trace := acc.reverse, stop := .maxIterations,
      iterations := iter, doneCalled := true }
  | fuel + 1, iter, p, failed, acc =>
    let iter' := iter + 1
    let out := oracle p iter'
    if !out.hasToolCalls then
      { payload := p, trace := acc.reverse, stop := .noToolCalls,
        iterations := iter', doneCalled := true }
    else if out.completedCalls.isEmpty then
      { payload := p, trace := acc.reverse, stop := .noCompleted,
        iterations := iter', doneCalled := true }
    else
      let newCalls := out.completedCalls.filter (fun tc => !failed.contains (sigOf tc))
      if newCalls.isEmpty then
        { payload := p,
          trace := acc.reverse ++
            [{ payloadBefore := p, failedBefore := failed, completed := out.completedCalls,
               executed := [], results := [], failedAfter := failed }],
          stop := .loopBreak, iterations := iter', doneCalled := true }
      else
        let results := executeMcpTools parse stringify callTool newCalls
        let failed' := updateFailed failed newCalls results
        let entry : IterTrace :=
          { payloadBefore := p, failedBefore := failed, completed := out.completedCalls,
            executed := newCalls, results := results, failedAfter := failed' }
        match formatToolMessages parse out.fullText newCalls results (baseProviderOf p) with
        | .error e =>
          { payload := p, trace := (entry :: acc).reverse, stop := .formatError e,
            iterations := iter', doneCalled := true }
        | .ok f =>
          loopGo parse stringify callTool oracle fuel iter'
            (appendTurns p out.fullText f) failed' (entry :: acc)

/-- The hard iteration ceiling (`maxIterations = 20`). -/
def maxIterationsDefault : Nat := 20

/-- One whole run of `openToolAwareChatStream`: the loop starts with a fresh
failure-signature set and an empty trace. -/
def openToolAwareChatStream (parse : String → Except String Json) (stringify : Json → String)
    (callTool : String → Json → McpCallResult) (oracle : Payload → Nat → IterOut)
    (payload : Payload) : LoopResult :=
  loopGo parse stringify callTool oracle maxIterationsDefault 0 payload [] []

/-- Per-entry execution facts of one traced iteration: the executed list is
exactly the failure-filtered completed list, the results come from the
execution gateway on those calls, and the new failure set is computed from the
results. -/
def entryOK (parse : String → Except String Json) (stringify : Json → String)
    (callTool : String → Json → McpCallResult) (e : IterTrace) : Prop :=
  e.executed = e.completed.filter (fun tc => !e.failedBefore.contains (sigOf tc)) ∧
  e.results = executeMcpTools parse stringify callTool e.executed ∧
  e.failedAfter = updateFailed e.failedBefore e.executed e.results

/-- The trace forms a chain: each entry starts from the failure set the
previous entry ended with. -/
def chainOK (parse : String → Except String Json) (stringify : Json → String)
    (callTool : String → Json → McpCallResult) :
    List String → List IterTrace → Prop
  | _, [] => True
  | f, e :: rest =>
    e.failedBefore = f ∧ entryOK parse stringify callTool e ∧
      chainOK parse stringify callTool e.failedAfter rest

/-- Argument passed to the caller's `onError` callback in `openChatStream`. -/
inductive ErrData where
  | parsed (data : String)
  | badFrame (raw : String)
  | transport
deriving Repr, DecidableEq

/-- One event delivered by the server-sent event source to `openChatStream`,
after the handler's own `JSON.parse` attempt: default `message` frames (an
optional `text` member and a `done` flag), `llm-error` frames (parsed or not),
forwarded tool-use frames (parsed or not), and a transport-level source error. -/
inductive ClientEvent where
  | message (text : Option String) (done : Bool)
  | messageBad
  | llmError (data : String)
  | llmErrorBad (raw : String)
  | anthropicToolUse (eventData : ToolUseEventData)
  | anthropicToolUseBad
  | openaiToolUse (eventData : ToolUseEventData)
  | openaiToolUseBad
  | sourceError
deriving Repr, DecidableEq

/-- One invocation of a caller-supplied callback, in delivery order. -/
inductive CallbackCall where
  | onText (t : String)
  | onError (e : ErrData)
  | onDone
  | onToolUse (eventData : ToolUseEventData)
deriving Repr, DecidableEq

/-- State of one open `EventSource` client: whether `es.close()` has run, and
the callback invocations made so far. -/
structure ClientState where
  closed : Bool
  outputs : List CallbackCall
deriving Repr, DecidableEq

/-- The `safeDone` helper: invoke `onDone`, then close the event source. -/
def safeDone (st : ClientState) : ClientState :=
  { closed := true, outputs := st.outputs ++ [CallbackCall.onDone] }

/-- Dispatch of one delivered event through the handlers installed by
`openChatStream`; a closed `EventSource` delivers nothing. -/
def dispatchEvent (st : ClientState) (ev : ClientEvent) : ClientState :=
  if st.closed then st else
  match ev with
  | .message text done =>
    let st1 := match text with
      | some t => { st with outputs := st.outputs ++ [CallbackCall.onText t] }
      | none => st
    if done then safeDone st1 else st1
  | .messageBad => st
  | .llmError d =>
    safeDone { st with outputs := st.outputs ++ [CallbackCall.onError (.parsed d)] }
  | .llmErrorBad raw =>
    safeDone { st with outputs := st.outputs ++ [CallbackCall.onError (.badFrame raw)] }
  | .anthropicToolUse e => { st with outputs := st.outputs ++ [CallbackCall.onToolUse e] }
  | .anthropicToolUseBad => st
  | .openaiToolUse e => { st with outputs := st.outputs ++ [CallbackCall.onToolUse e] }
  | .openaiToolUseBad => st
  | .sourceError =>
    safeDone { st with outputs := st.outputs ++ [CallbackCall.onError .transport] }

/-- Process a whole delivered event sequence from a freshly opened source. -/
def runClient (events : List ClientEvent) : ClientState :=
  events.foldl dispatchEvent { closed := false, outputs := [] }

/-- Events whose handler runs `safeDone` and hence closes the source. -/
def endsStream : ClientEvent → Bool
  | .message _ done => done
  | .llmError _ => true
  | .llmErrorBad _ => true
  | .sourceError => true
  | _ => false

/-- Whether a callback invocation surfaced an error. -/
def isErrorOutput : CallbackCall → Bool
  | .onError _ => true
  | _ => false

/-- A stored chat session payload (`ChatBody` in `session.post.ts`; `messages`
is a list, so the `Array.isArray` part of the validation always holds). -/
structure ChatBody where
  provider : String
  model : String
  messages : List Msg
deriving Repr, DecidableEq

/-- The shared validation `!body?.provider || !body?.model ||
!Array.isArray(body?.messages)` of both endpoints, negated. -/
def validChatBody (b : ChatBody) : Bool := b.provider != "" && b.model != ""

/-- Session expiry: `setTimeout(() => store.delete(sid), 120_000)`. -/
def sessionExpiryMs : Nat := 120000

/-- The in-memory session store: sid, stored payload, creation time in ms.
The deletion timer armed at creation is modelled by ignoring entries whose
timer has fired (`now ≥ created + sessionExpiryMs`). -/
abbrev SessionStore := List (String × ChatBody × Nat)

/-- Entries whose expiry timer has not fired yet at time `now`. -/
def liveAt (now : Nat) (store : SessionStore) : SessionStore :=
  store.filter (fun e => decide (now < e.2.2 + sessionExpiryMs))

/-- `store.get(sid)` at time `now`. -/
def storeGet (now : Nat) (sid : String) (store : SessionStore) : Option ChatBody :=
  match (liveAt now store).find? (fun e => e.1 == sid) with
  | some e => some e.2.1
  | none => none

/-- `store.delete(sid)`. -/
def storeDelete (sid : String) (store : SessionStore) : SessionStore :=
  store.filter (fun e => e.1 != sid)

/-- Outcome of the session-creation endpoint. -/
inductive PostResult where
  | badRequest400
  | created (sid : String)
deriving Repr, DecidableEq

/-- `session.post.ts`: validate the body, store it under the freshly generated
uuid `sid` with a 120-second deletion timer, and return the sid. -/
def sessionPost (store : SessionStore) (now : Nat) (sid : String) (body : ChatBody) :
    SessionStore × PostResult :=
  if !validChatBody body then (store, .badRequest400)
  else (store ++ [(sid, body, now)], .created sid)

/-- Outcome of opening the stream endpoint, up to upstream dispatch. -/
inductive StreamOpen where
  | badRequest
  | proceed (body : ChatBody)
deriving Repr, DecidableEq

/-- `stream.get.ts` up to provider dispatch: read the stored payload (a falsy
`sid` reads nothing), delete the store entry, then validate; an absent or
invalid payload emits a `bad_request` error event and the response ends. -/
def streamGet (store : SessionStore) (now : Nat) (sid : String) :
    SessionStore × StreamOpen :=
  let body := if sid = "" then none else storeGet now sid store
  let store' := storeDelete sid store
  match body with
  | none => (store', .badRequest)
  | some b => if !validChatBody b then (store', .badRequest) else (store', .proceed b)

/-- Whether the handler goes on to build a request to the upstream provider;
the `bad_request` path returns before any upstream request exists. -/
def contactsUpstream : StreamOpen → Bool
  | .badRequest => false
  | .proceed _ => true

/-- Call ids of the `function_call` items of a vendor-B summary output array. -/
def fcIds : List OutputItem → List String
  | [] => []
  | .functionCall cid _ _ :: rest => cid :: fcIds rest
  | .other :: rest => fcIds rest

/-- Ids carried by `tool_use` blocks. -/
def toolUseIdsOfBlocks : List ContentBlock → List String
  | [] => []
  | .toolUse id _ _ :: rest => id :: toolUseIdsOfBlocks rest
  | .text _ :: rest => toolUseIdsOfBlocks rest
  | .toolResult _ _ :: rest => toolUseIdsOfBlocks rest

/-- Ids of the tool calls announced by one message (vendor-A `tool_use` blocks,
vendor-B standalone `function_call` records). -/
def toolCallIdsOfMsg : Msg → List String
  | .blocks _ content => toolUseIdsOfBlocks content
  | .functionCall _ callId _ _ => [callId]
  | .plain _ _ => []
  | .functionCallOutput _ _ => []

/-- Ids referenced by `tool_result` blocks. -/
def toolResultIdsOfBlocks : List ContentBlock → List String
  | [] => []
  | .toolResult toolUseId _ :: rest => toolUseId :: toolResultIdsOfBlocks rest
  | .text _ :: rest => toolResultIdsOfBlocks rest
  | .toolUse _ _ _ :: rest => toolResultIdsOfBlocks rest

/-- Ids of the tool results carried by one message (vendor-A `tool_result`
blocks, vendor-B standalone `function_call_output` records). -/
def toolResultIdsOfMsg : Msg → List String
  | .blocks _ content => toolResultIdsOfBlocks content
  | .functionCallOutput callId _ => [callId]
  | .plain _ _ => []
  | .functionCall _ _ _ _ => []

/-- All tool-call ids announced across a message list. -/
def toolCallIdsOf (msgs : List Msg) : List String := (msgs.map toolCallIdsOfMsg).flatten

/-- All tool-result ids referenced across a message list. -/
def toolResultIdsOf (msgs : List Msg) : List String := (msgs.map toolResultIdsOfMsg).flatten

/-- Error frames of the event source (`llm-error` events, parsable or not). -/
def isErrorFrame : ClientEvent → Bool
  | .llmError _ => true
  | .llmErrorBad _ => true
  | _ => false

/-- Argument `onError` receives for an error frame. -/
def errOf : ClientEvent → ErrData
  | .llmError d => .parsed d
  | .llmErrorBad raw => .badFrame raw
  | _ => .transport

/-- The vendor-A assembly scenario: start, two interleaved argument fragments,
then the completion marker. -/
def vendorAScenarioEvents : List ToolUseEventData :=
  [.toolUseStart "t1" "roll_dice" none,
   .toolInputDelta "\x7b\"sid",
   .toolInputDelta "es\":20\x7d",
   .toolUseComplete]

/-- The vendor-B assembly scenario: three positional fragments for output
index 0, then the end-of-turn summary naming `call_abc`. -/
def vendorBScenarioEvents : List ToolUseEventData :=
  [.fnArgsDelta 0 "\x7b\"si",
   .fnArgsDelta 0 "des\"",
   .fnArgsDelta 0 ":20\x7d",
   .responseCompleted [.functionCall "call_abc" "roll_dice" "\x7b\"sides\":20\x7d"]]

/-- Placeholder trace entry used as the default of `List.getD`. -/
def emptyTrace : IterTrace :=
  { payloadBefore := { provider := "", providerMode := "", messages := [], input := none },
    failedBefore := [], completed := [], executed := [], results := [], failedAfter := [] }

/-- Concrete JSON parser for witnesses: accepts only the dice-roll arguments. -/
def parseDiceW : String → Except String Json :=
  fun s => if s = "\x7b\"sides\":20\x7d" then .ok (.obj [("sides", .num 20)]) else .error "bad json"

/-- Concrete serializer for witnesses. -/
def stringifyW : Json → String := fun _ => "\x7b\"sides\":20\x7d"

/-- Concrete tool runtime for witnesses whose every call throws. -/
def callToolThrowW : String → Json → McpCallResult := fun _ _ => .thrown "boom"

/-- Concrete tool runtime for witnesses whose every call succeeds. -/
def callToolOkW : String → Json → McpCallResult := fun _ _ => .value (.str "ok")

/-- Concrete model oracle for witnesses: every turn requests the same dice
roll. -/
def oracleDiceW : Payload → Nat → IterOut :=
  fun _ _ =>
    { fullText := "Rolling.",
      hasToolCalls := true,
      completedCalls := [{ id := "t1", name := "roll_dice", arguments := "\x7b\"sides\":20\x7d" }] }

/-- Concrete vendor-A payload for witnesses. -/
def payloadAW : Payload :=
  { provider := "anthropic", providerMode := "anthropic-clientmcp",
    messages := [Msg.plain "user" "roll for me"], input := none }

/-- Witness run in which the dice roll fails once and is then requested again. -/
def resDiceW : LoopResult :=
  openToolAwareChatStream parseDiceW stringifyW callToolThrowW oracleDiceW payloadAW

/-- First traced iteration of the witness run. -/
def diceTrace0W : IterTrace := resDiceW.trace.getD 0 emptyTrace

/-- Second traced iteration of the witness run. -/
def diceTrace1W : IterTrace := resDiceW.trace.getD 1 emptyTrace

/-- Always-succeeding JSON parser for witnesses. -/
def parseOkW : String → Except String Json := fun _ => .ok (.obj [])

/-- Witness pending call still awaiting fragments (started first). -/
def callAW : PendingCall :=
  { id := "a", name := "alpha", input := Json.obj [], inputJson := "",
    complete := false, inputComplete := false }

/-- Witness pending call still awaiting fragments (started last). -/
def callBW : PendingCall :=
  { id := "b", name := "beta", input := Json.obj [], inputJson := "\x7b\"si",
    complete := false, inputComplete := false }

/-- Witness pending call already complete. -/
def callCW : PendingCall :=
  { id := "c", name := "gamma", input := Json.obj [], inputJson := "\x7b\x7d",
    complete := true, inputComplete := true }

/-- Witness assembler state holding the three calls above. -/
def st3W : AssemblerState :=
  { activeToolCalls := [("a", callAW), ("b", callBW), ("c", callCW)],
    hasToolCalls := true, pendingDeltas := [], finalArgumentsByIndex := [] }

/-- Witness run that requests a fresh successful tool call on every turn. -/
def resTruncW : LoopResult :=
  openToolAwareChatStream parseOkW stringifyW callToolOkW oracleDiceW payloadAW

/-- Witness tool call. -/
def tcW : ToolCall := { id := "t1", name := "roll_dice", arguments := "\x7b\"sides\":20\x7d" }

/-- Witness formatted messages for the dice-roll call and its executed result. -/
def fmtW : FormattedMsgs :=
  (formatToolMessages parseOkW "hi" [tcW]
      (executeMcpTools parseOkW stringifyW callToolThrowW [tcW]) "anthropic").toOption.getD
    { assistantMessage := Msg.plain "" "", toolResultMessages := [] }

/-- Witness client events delivered before an error frame. -/
def eventsPreW : List ClientEvent :=
  [.message (some "Hi") false, .anthropicToolUse .toolUseComplete]

/-- Witness client events the server writes after the error frame. -/
def eventsPostW : List ClientEvent :=
  [.message (some "late") false, .message none true]

/-- Witness chat session payload. -/
def bodyW : ChatBody :=
  { provider := "anthropic", model := "claude", messages := [Msg.plain "user" "hi"] }

/-! ### Helper lemmas about fragment routing -/

theorem appendToLastEligible_none (frag : String) :
    ∀ l : CallMap, (∀ p ∈ l, eligible p.2 = false) →
      appendToLastEligible frag l = (l, false) := by
  intro l h
  induction l with
  | nil => rfl
  | cons kc rest ih =>
    obtain ⟨k, c⟩ := kc
    have hrest := ih (fun p hp => h p (List.mem_cons_of_mem _ hp))
    have hkc : eligible c = false := h (k, c) (List.mem_cons_self _ _)
    simp [appendToLastEligible, hrest, hkc]

theorem appendToLastEligible_split (frag : String) (k : String) (t : PendingCall)
    (post : CallMap) (ht : eligible t = true) (hpost : ∀ p ∈ post, eligible p.2 = false) :
    ∀ pre : CallMap,
      appendToLastEligible frag (pre ++ (k, t) :: post)
        = (pre ++ (k, applyDelta frag t) :: post, true) := by
  intro pre
  induction pre with
  | nil =>
    have hp := appendToLastEligible_none frag post hpost
    simp [appendToLastEligible, hp, ht]
  | cons kc pre' ih =>
    obtain ⟨k0, c0⟩ := kc
    simp [appendToLastEligible, ih]

/-- C3: on a `tool_input_delta` event with a nonempty fragment, when the active
map decomposes as `pre ++ (k, t) :: post` with `t` eligible and every later
call ineligible (so `t` is the most recently started eligible call), the
assembler appends the fragment to `t` alone, and immediately afterwards `t` is
marked arguments-complete exactly when its accumulated string holds at least
one opening brace and balanced brace counts. -/
theorem toolInputDelta_appends_to_last_eligible
    (parse : String → Except String Json) (st : AssemblerState) (frag : String)
    (pre post : CallMap) (k : String) (t : PendingCall)
    (hsplit : st.activeToolCalls = pre ++ (k, t) :: post)
    (ht : eligible t = true)
    (hpost : ∀ p ∈ post, eligible p.2 = false)
    (hfrag : frag ≠ "") :
    (handleEvent parse st (.toolInputDelta frag)).activeToolCalls
        = pre ++ (k, applyDelta frag t) :: post ∧
    (applyDelta frag t).inputJson = t.inputJson ++ frag ∧
    ((applyDelta frag t).inputComplete = true ↔
      (0 < countChar openBraceChar (t.inputJson ++ frag) ∧
        countChar openBraceChar (t.inputJson ++ frag)
          = countChar closeBraceChar (t.inputJson ++ frag))) ∧
    (applyDelta frag t).id = t.id ∧ (applyDelta frag t).name = t.name ∧
    (applyDelta frag t).input = t.input ∧ (applyDelta frag t).complete = t.complete := by
  have hIncomplete : t.inputComplete = false := by
    have h := ht
    simp only [eligible, Bool.and_eq_true, Bool.not_eq_true'] at h
    exact h.2
  have hcond : (frag != "") = true := by
    simp only [bne_iff_ne, ne_eq]
    exact hfrag
  refine ⟨?_, rfl, ?_, rfl, rfl, rfl, rfl⟩
  · simp only [handleEvent, hcond, if_true]
    rw [hsplit, appendToLastEligible_split frag k t post ht hpost pre]
  · simp only [applyDelta, hIncomplete]
    by_cases hC : (0 < countChar openBraceChar (t.inputJson ++ frag) ∧
        countChar openBraceChar (t.inputJson ++ frag)
          = countChar closeBraceChar (t.inputJson ++ frag))
    · simp [hC]
    · simp [hC]

/-- Witness for C3: with calls `a` and `b` eligible and `c` complete, the
fragment goes to `b`, the most recently started eligible call. -/
theorem toolInputDelta_appends_witness :
    (handleEvent parseOkW st3W (.toolInputDelta "des\":20\x7d")).activeToolCalls
      = [("a", callAW), ("b", applyDelta "des\":20\x7d" callBW), ("c", callCW)] :=
  (toolInputDelta_appends_to_last_eligible parseOkW st3W "des\":20\x7d"
    [("a", callAW)] [("c", callCW)] "b" callBW rfl (by decide) (by decide)
    (by decide)).1

/-! ### Completed-call assembly -/

theorem finalizePending_of_parse_ok (parse : String → Except String Json)
    (c : PendingCall) (v : Json) (hne : c.inputJson ≠ "")
    (hv : parse c.inputJson = .ok v) :
    finalizePending parse c = { c with complete := true, input := v } := by
  have hcond : (c.inputJson != "") = true := by
    simp only [bne_iff_ne, ne_eq]
    exact hne
  simp [finalizePending, hcond, hv]

/-- C4: a pending call whose accumulated fragments form a parseable JSON text
is assembled into a record whose arguments serialize exactly the parsed value;
and the vendor-A scenario (start of `t1`/`roll_dice`, two fragments of the
sides object, then the completion marker) yields exactly one such record. -/
theorem assembled_arguments_equal_parsed_concatenation
    (parse : String → Except String Json) (stringify : Json → String) :
    (∀ (m : CallMap) (k : String) (c : PendingCall) (v : Json),
        (k, c) ∈ m → c.inputJson ≠ "" → parse c.inputJson = .ok v →
        c.id ≠ "" → c.name ≠ "" →
        ({ id := c.id, name := c.name, arguments := stringify v } : ToolCall)
          ∈ completedToolCalls parse stringify m) ∧
    (∀ v : Json, parse "\x7b\"sides\":20\x7d" = .ok v →
        (runEvents parse vendorAScenarioEvents .init).activeToolCalls
            = [("t1", { id := "t1", name := "roll_dice", input := Json.obj [],
                        inputJson := "\x7b\"sides\":20\x7d",
                        complete := true, inputComplete := true })] ∧
        completedToolCalls parse stringify
            (runEvents parse vendorAScenarioEvents .init).activeToolCalls
          = [{ id := "t1", name := "roll_dice", arguments := stringify v }]) := by
  constructor
  · intro m k c v hmem hne hv hid hname
    have hfin := finalizePending_of_parse_ok parse c v hne hv
    have h1 : finalizePending parse c
        ∈ m.map (fun kc => finalizePending parse kc.2) :=
      List.mem_map_of_mem (fun kc => finalizePending parse kc.2) hmem
    have h2 : finalizePending parse c
        ∈ (m.map (fun kc => finalizePending parse kc.2)).filter
            (fun c => c.id != "" && c.name != "") := by
      refine List.mem_filter.mpr ⟨h1, ?_⟩
      rw [hfin]
      simp only [Bool.and_eq_true, bne_iff_ne, ne_eq]
      exact ⟨hid, hname⟩
    have h3 := List.mem_map_of_mem
      (fun c : PendingCall =>
        ({ id := c.id, name := c.name, arguments := stringify c.input } : ToolCall)) h2
    rw [hfin] at h3
    exact h3
  · intro v hv
    have hact : (runEvents parse vendorAScenarioEvents .init).activeToolCalls
        = [("t1", { id := "t1", name := "roll_dice", input := Json.obj [],
                    inputJson := "\x7b\"sides\":20\x7d",
                    complete := true, inputComplete := true })] := rfl
    refine ⟨hact, ?_⟩
    rw [hact]
    have hfin := finalizePending_of_parse_ok parse
      { id := "t1", name := "roll_dice", input := Json.obj [],
        inputJson := "\x7b\"sides\":20\x7d", complete := true, inputComplete := true }
      v (by decide) hv
    simp [completedToolCalls, hfin]

/-- Witness for C4: running the scenario with a concrete parser yields the one
assembled dice-roll record. -/
theorem assembled_arguments_witness :
    completedToolCalls parseDiceW stringifyW
        (runEvents parseDiceW vendorAScenarioEvents .init).activeToolCalls
      = [{ id := "t1", name := "roll_dice",
           arguments := stringifyW (Json.obj [("sides", Json.num 20)]) }] :=
  ((assembled_arguments_equal_parsed_concatenation parseDiceW stringifyW).2
    (Json.obj [("sides", Json.num 20)]) rfl).2

/-! ### Vendor-B summary processing -/

theorem mapSet_mem_self (k : String) (v : PendingCall) :
    ∀ m : CallMap, (k, v) ∈ mapSet k v m := by
  intro m
  induction m with
  | nil => simp [mapSet]
  | cons kc rest ih =>
    obtain ⟨k', v'⟩ := kc
    by_cases h : k' = k
    · simp [mapSet, h]
    · simp only [mapSet, if_neg h]
      exact List.mem_cons_of_mem _ ih

theorem mapSet_mem_preserve (k k' : String) (v v' : PendingCall) (hne : k ≠ k') :
    ∀ m : CallMap, (k, v) ∈ m → (k, v) ∈ mapSet k' v' m := by
  intro m hm
  induction m with
  | nil => cases hm
  | cons kc rest ih =>
    obtain ⟨k0, v0⟩ := kc
    by_cases h : k0 = k'
    · subst h
      simp only [mapSet, if_pos rfl]
      rcases List.mem_cons.mp hm with h1 | h1
      · exact absurd (congrArg Prod.fst h1) hne
      · exact List.mem_cons_of_mem _ h1
    · simp only [mapSet, if_neg h]
      rcases List.mem_cons.mp hm with h1 | h1
      · exact h1 ▸ List.mem_cons_self _ _
      · exact List.mem_cons_of_mem _ (ih h1)

theorem applyOutputItems_append (parse : String → Except String Json) (pd : DeltaMap) :
    ∀ (l1 l2 : List OutputItem) (i : Nat) (m : CallMap),
      applyOutputItems parse pd (l1 ++ l2) i m
        = applyOutputItems parse pd l2 (i + l1.length) (applyOutputItems parse pd l1 i m) := by
  intro l1
  induction l1 with
  | nil => intro l2 i m; simp [applyOutputItems]
  | cons item rest ih =>
    intro l2 i m
    have harith : i + 1 + rest.length = i + (rest.length + 1) := by omega
    simp only [List.cons_append, applyOutputItems, List.append_eq, ih, List.length_cons, harith]

theorem applyOutputItems_preserves (parse : String → Except String Json) (pd : DeltaMap)
    (cid : String) (v : PendingCall) :
    ∀ (l : List OutputItem) (i : Nat) (m : CallMap), cid ∉ fcIds l →
      (cid, v) ∈ m → (cid, v) ∈ applyOutputItems parse pd l i m := by
  intro l
  induction l with
  | nil => intro i m _ hm; exact hm
  | cons item rest ih =>
    intro i m hfresh hm
    match item with
    | .other => exact ih (i + 1) m (by simpa [fcIds] using hfresh) hm
    | .functionCall cid' nm ar =>
      have hne : cid ≠ cid' := by
        intro h
        exact hfresh (h ▸ List.mem_cons_self _ _)
      have hfresh' : cid ∉ fcIds rest := fun h => hfresh (List.mem_cons_of_mem _ h)
      exact ih (i + 1) _ hfresh' (mapSet_mem_preserve cid cid' v _ hne m hm)

/-- C5: vendor-B positional argument fragments are only buffered by output
index and never touch the active-call map; records are minted only by the
end-of-turn summary, one per `function_call` item and keyed by its `call_id`;
and the three-fragment scenario yields exactly one `call_abc` record. -/
theorem vendorB_records_minted_only_at_summary (parse : String → Except String Json) :
    (∀ (st : AssemblerState) (i : Nat) (d : String),
        (handleEvent parse st (.fnArgsDelta i d)).activeToolCalls = st.activeToolCalls ∧
        (handleEvent parse st (.fnArgsDelta i d)).pendingDeltas
          = deltaSet i ((deltaGet i st.pendingDeltas).getD "" ++ d) st.pendingDeltas) ∧
    (∀ (st : AssemblerState) (i : Nat) (a : String),
        (handleEvent parse st (.fnArgsDone i a)).activeToolCalls = st.activeToolCalls) ∧
    (∀ (st : AssemblerState) (out1 out2 : List OutputItem) (cid nm ar : String),
        cid ∉ fcIds out2 →
        (cid, { id := cid, name := nm, input := parsedOf parse ar,
                inputJson := (deltaGet out1.length st.pendingDeltas).getD "",
                complete := true, inputComplete := true })
          ∈ (handleEvent parse st
              (.responseCompleted (out1 ++ .functionCall cid nm ar :: out2))).activeToolCalls) ∧
    ((runEvents parse vendorBScenarioEvents .init).activeToolCalls
        = [("call_abc",
            { id := "call_abc", name := "roll_dice",
              input := parsedOf parse "\x7b\"sides\":20\x7d",
              inputJson := "\x7b\"sides\":20\x7d",
              complete := true, inputComplete := true })] ∧
      (runEvents parse vendorBScenarioEvents .init).pendingDeltas
        = [(0, "\x7b\"sides\":20\x7d")]) := by
  refine ⟨fun st i d => ⟨rfl, rfl⟩, fun st i a => ?_, ?_, rfl, rfl⟩
  · simp only [handleEvent]
    split <;> rfl
  · intro st out1 out2 cid nm ar hfresh
    show _ ∈ applyOutputItems parse st.pendingDeltas _ 0 st.activeToolCalls
    rw [applyOutputItems_append]
    simp only [applyOutputItems, applyOutputItem, Nat.zero_add]
    exact applyOutputItems_preserves parse st.pendingDeltas cid _ out2 _ _ hfresh
      (mapSet_mem_self cid _ _)

/-- Witness for C5: a summary with one preceding non-function item mints the
single `call_abc` record from a fresh assembler state. -/
theorem vendorB_records_minted_witness :
    ("call_abc",
      { id := "call_abc", name := "roll_dice",
        input := parsedOf parseDiceW "\x7b\"sides\":20\x7d",
        inputJson := "", complete := true, inputComplete := true })
      ∈ (handleEvent parseDiceW AssemblerState.init
          (.responseCompleted
            [.other, .functionCall "call_abc" "roll_dice" "\x7b\"sides\":20\x7d"])).activeToolCalls :=
  (vendorB_records_minted_only_at_summary parseDiceW).2.2.1 AssemblerState.init
    [.other] [] "call_abc" "roll_dice" "\x7b\"sides\":20\x7d" (by decide)

/-! ### Tool execution gateway -/

theorem foldl_push_eq_map {α β : Type} (f : α → β) :
    ∀ (l : List α) (acc : List β),
      l.foldl (fun rs x => rs ++ [f x]) acc = acc ++ l.map f := by
  intro l
  induction l with
  | nil => intro acc; simp
  | cons x rest ih => intro acc; simp [ih]

theorem executeMcpTools_eq_map (parse : String → Except String Json)
    (stringify : Json → String) (callTool : String → Json → McpCallResult)
    (calls : List ToolCall) :
    executeMcpTools parse stringify callTool calls
      = calls.map (executeOneTool parse stringify callTool) := by
  unfold executeMcpTools
  rw [foldl_push_eq_map]
  simp

theorem executeOneTool_id (parse : String → Except String Json)
    (stringify : Json → String) (callTool : String → Json → McpCallResult)
    (tc : ToolCall) :
    (executeOneTool parse stringify callTool tc).tool_call_id = tc.id := by
  rcases hp : parse tc.arguments with e | args
  · simp [executeOneTool, hp]
  · rcases hc : callTool tc.name args with m | r <;> simp [executeOneTool, hp, hc]

theorem executeMcpTools_ids (parse : String → Except String Json)
    (stringify : Json → String) (callTool : String → Json → McpCallResult)
    (calls : List ToolCall) :
    (executeMcpTools parse stringify callTool calls).map ToolResult.tool_call_id
      = calls.map ToolCall.id := by
  rw [executeMcpTools_eq_map, List.map_map]
  exact List.map_congr_left fun tc _ => executeOneTool_id parse stringify callTool tc

/-- Per-call contract of the gateway once the MCP client has been acquired:
one result per call, in input order, each call's result independent of the
others; parse failures and thrown invocations map to `Error`-marked result
contents. -/
theorem executeMcpTools_contract (parse : String → Except String Json)
    (stringify : Json → String) (callTool : String → Json → McpCallResult) :
    (∀ calls : List ToolCall,
        executeMcpTools parse stringify callTool calls
          = calls.map (executeOneTool parse stringify callTool)) ∧
    (∀ calls : List ToolCall,
        (executeMcpTools parse stringify callTool calls).length = calls.length) ∧
    (∀ calls : List ToolCall,
        (executeMcpTools parse stringify callTool calls).map ToolResult.tool_call_id
          = calls.map ToolCall.id) ∧
    (∀ (tc : ToolCall) (e : String), parse tc.arguments = .error e →
        (executeOneTool parse stringify callTool tc).content
            = "Error parsing tool arguments: " ++ e ∧
        ∃ rest, (executeOneTool parse stringify callTool tc).content = "Error" ++ rest) ∧
    (∀ (tc : ToolCall) (args : Json) (msg : String),
        parse tc.arguments = .ok args → callTool tc.name args = .thrown msg →
        (executeOneTool parse stringify callTool tc).content
            = "Error executing tool " ++ tc.name ++ ": " ++ msg ∧
        ∃ rest, (executeOneTool parse stringify callTool tc).content = "Error" ++ rest) := by
  refine ⟨executeMcpTools_eq_map parse stringify callTool, ?_,
    executeMcpTools_ids parse stringify callTool, ?_, ?_⟩
  · intro calls
    rw [executeMcpTools_eq_map]
    exact List.length_map calls _
  · intro tc e hpe
    have hc : (executeOneTool parse stringify callTool tc).content
        = "Error parsing tool arguments: " ++ e := by
      simp [executeOneTool, hpe]
    refine ⟨hc, " parsing tool arguments: " ++ e, ?_⟩
    rw [hc, show ("Error parsing tool arguments: " : String)
        = "Error" ++ " parsing tool arguments: " from rfl, String.append_assoc]
  · intro tc args msg hok hthrown
    have hc : (executeOneTool parse stringify callTool tc).content
        = "Error executing tool " ++ tc.name ++ ": " ++ msg := by
      simp [executeOneTool, hok, hthrown]
    refine ⟨hc, " executing tool " ++ tc.name ++ ": " ++ msg, ?_⟩
    have h0 : ("Error executing tool " : String) = "Error" ++ " executing tool " := by decide
    have h1 : ∀ x : String, "Error executing tool " ++ x = "Error" ++ (" executing tool " ++ x) := by
      intro x
      rw [← String.append_assoc, ← h0]
    rw [hc, h1 tc.name]
    simp only [String.append_assoc]

/-- Counterexample for C6 as stated: when acquiring the MCP client rejects
(`await getClient()` is outside the per-call `try`), the gateway raises and
returns no per-call results at all, so it is not true that it never raises
and always returns one result per call. -/
theorem executeMcpTools_raises_on_client_failure :
    executeMcpToolsFull (Except.error "fetch failed") parseOkW stringifyW [tcW]
      = Except.error "fetch failed" := rfl

/-- C6 (amended): provided the MCP client handle is acquired, the execution
gateway returns exactly one result per call, in input order, with each call's
result independent of the others (the result list is a pointwise map, so one
failing call cannot prevent any other call from producing its result);
arguments that fail JSON parsing produce a structured parse-error message,
a throwing tool invocation produces an `Error`-prefixed message, and both
failure contents begin with the reserved `Error` marker. -/
theorem executeMcpToolsFull_contract
    (getClient : Except String (String → Json → McpCallResult))
    (parse : String → Except String Json) (stringify : Json → String)
    (callTool : String → Json → McpCallResult)
    (hclient : getClient = .ok callTool) :
    (∀ calls : List ToolCall,
        executeMcpToolsFull getClient parse stringify calls
          = .ok (calls.map (executeOneTool parse stringify callTool))) ∧
    (∀ calls : List ToolCall,
        (executeMcpTools parse stringify callTool calls).length = calls.length) ∧
    (∀ calls : List ToolCall,
        (executeMcpTools parse stringify callTool calls).map ToolResult.tool_call_id
          = calls.map ToolCall.id) ∧
    (∀ (tc : ToolCall) (e : String), parse tc.arguments = .error e →
        (executeOneTool parse stringify callTool tc).content
            = "Error parsing tool arguments: " ++ e ∧
        ∃ rest, (executeOneTool parse stringify callTool tc).content = "Error" ++ rest) ∧
    (∀ (tc : ToolCall) (args : Json) (msg : String),
        parse tc.arguments = .ok args → callTool tc.name args = .thrown msg →
        (executeOneTool parse stringify callTool tc).content
            = "Error executing tool " ++ tc.name ++ ": " ++ msg ∧
        ∃ rest, (executeOneTool parse stringify callTool tc).content = "Error" ++ rest) := by
  have h := executeMcpTools_contract parse stringify callTool
  refine ⟨?_, h.2.1, h.2.2.1, h.2.2.2.1, h.2.2.2.2⟩
  intro calls
  rw [executeMcpToolsFull.eq_def, hclient]
  show Except.ok (executeMcpTools parse stringify callTool calls) = _
  rw [h.1 calls]

/-- Witness for C6 (amended): with an acquired client and a parser that
rejects everything, the single call produces the one structured parse-error
result. -/
theorem executeMcpToolsFull_contract_witness :
    ((executeOneTool (fun _ => .error "nope") stringifyW callToolOkW
        { id := "t9", name := "roll_dice", arguments := "oops" }).content
      = "Error parsing tool arguments: " ++ "nope") ∧
    executeMcpToolsFull (Except.ok callToolOkW) (fun _ => .error "nope") stringifyW
        [{ id := "t9", name := "roll_dice", arguments := "oops" }]
      = .ok [{ tool_call_id := "t9", content := "Error parsing tool arguments: nope" }] := by
  have h := executeMcpToolsFull_contract (Except.ok callToolOkW)
    (fun _ => .error "nope") stringifyW callToolOkW rfl
  refine ⟨(h.2.2.2.1 { id := "t9", name := "roll_dice", arguments := "oops" } "nope" rfl).1, ?_⟩
  rw [h.1 [{ id := "t9", name := "roll_dice", arguments := "oops" }]]
  rfl

/-! ### Message format adapter: call/result id correspondence -/

theorem toolUseIdsOfBlocks_append :
    ∀ a b : List ContentBlock,
      toolUseIdsOfBlocks (a ++ b) = toolUseIdsOfBlocks a ++ toolUseIdsOfBlocks b := by
  intro a b
  induction a with
  | nil => simp [toolUseIdsOfBlocks]
  | cons c rest ih => cases c <;> simp [toolUseIdsOfBlocks, ih]

theorem toolResultIdsOfBlocks_append :
    ∀ a b : List ContentBlock,
      toolResultIdsOfBlocks (a ++ b) = toolResultIdsOfBlocks a ++ toolResultIdsOfBlocks b := by
  intro a b
  induction a with
  | nil => simp [toolResultIdsOfBlocks]
  | cons c rest ih => cases c <;> simp [toolResultIdsOfBlocks, ih]

theorem buildToolUseBlocks_ok (parse : String → Except String Json) :
    ∀ (calls : List ToolCall) (blocks : List ContentBlock),
      buildToolUseBlocks parse calls = .ok blocks →
      toolUseIdsOfBlocks blocks = calls.map ToolCall.id ∧
      toolResultIdsOfBlocks blocks = [] := by
  intro calls
  induction calls with
  | nil =>
    intro blocks h
    simp only [buildToolUseBlocks, Except.ok.injEq] at h
    subst h
    exact ⟨rfl, rfl⟩
  | cons tc rest ih =>
    intro blocks h
    simp only [buildToolUseBlocks] at h
    split at h
    · cases h
    · split at h
      · cases h
      · next bs hm =>
        simp only [Except.ok.injEq] at h
        subst h
        have hrest := ih bs hm
        simp [toolUseIdsOfBlocks, toolResultIdsOfBlocks, hrest.1, hrest.2]

theorem buildFunctionCallOutputs_ok :
    ∀ (results : List ToolResult) (outs : List Msg),
      buildFunctionCallOutputs results = .ok outs →
      outs = results.map (fun r => Msg.functionCallOutput r.tool_call_id r.content) := by
  intro results
  induction results with
  | nil =>
    intro outs h
    simp only [buildFunctionCallOutputs, Except.ok.injEq] at h
    subst h
    rfl
  | cons r rest ih =>
    intro outs h
    simp only [buildFunctionCallOutputs] at h
    split at h
    · cases h
    · split at h
      · cases h
      · next os hm =>
        simp only [Except.ok.injEq] at h
        subst h
        simp [ih os hm]

theorem toolResultIdsOf_append (a b : List Msg) :
    toolResultIdsOf (a ++ b) = toolResultIdsOf a ++ toolResultIdsOf b := by
  simp [toolResultIdsOf]

theorem toolCallIdsOf_append (a b : List Msg) :
    toolCallIdsOf (a ++ b) = toolCallIdsOf a ++ toolCallIdsOf b := by
  simp [toolCallIdsOf]

theorem toolResultIdsOf_functionCalls (calls : List ToolCall) :
    toolResultIdsOf (calls.map (fun tc =>
      Msg.functionCall ("fc_" ++ replaceFirst tc.id "call_" "") tc.id tc.name tc.arguments))
      = [] := by
  induction calls with
  | nil => rfl
  | cons tc rest ih => simp [toolResultIdsOf, toolResultIdsOfMsg] at ih ⊢

theorem toolCallIdsOf_functionCalls (calls : List ToolCall) :
    toolCallIdsOf (calls.map (fun tc =>
      Msg.functionCall ("fc_" ++ replaceFirst tc.id "call_" "") tc.id tc.name tc.arguments))
      = calls.map ToolCall.id := by
  induction calls with
  | nil => rfl
  | cons tc rest ih => simp [toolCallIdsOf, toolCallIdsOfMsg] at ih ⊢; exact ih

theorem toolResultIdsOf_outputs (results : List ToolResult) :
    toolResultIdsOf (results.map (fun r => Msg.functionCallOutput r.tool_call_id r.content))
      = results.map ToolResult.tool_call_id := by
  induction results with
  | nil => rfl
  | cons r rest ih => simp [toolResultIdsOf, toolResultIdsOfMsg] at ih ⊢; exact ih

theorem toolCallIdsOf_outputs (results : List ToolResult) :
    toolCallIdsOf (results.map (fun r => Msg.functionCallOutput r.tool_call_id r.content))
      = [] := by
  induction results with
  | nil => rfl
  | cons r rest ih => simp [toolCallIdsOf, toolCallIdsOfMsg] at ih ⊢

theorem toolResultIdsOfBlocks_results (results : List ToolResult) :
    toolResultIdsOfBlocks (results.map (fun r =>
      ContentBlock.toolResult r.tool_call_id r.content))
      = results.map ToolResult.tool_call_id := by
  induction results with
  | nil => rfl
  | cons r rest ih => simp [toolResultIdsOfBlocks] at ih ⊢; exact ih

theorem toolUseIdsOfBlocks_results (results : List ToolResult) :
    toolUseIdsOfBlocks (results.map (fun r =>
      ContentBlock.toolResult r.tool_call_id r.content)) = [] := by
  induction results with
  | nil => rfl
  | cons r rest ih => simp [toolUseIdsOfBlocks] at ih ⊢; exact ih

/-- C8: formatting one iteration's executed calls with their gateway results
yields, for either vendor shape, tool-result records whose call ids are
exactly the executed calls' ids (same order, one each) and an assistant
tool-calls turn announcing exactly those ids; for vendor A the loop appends
the assistant turn immediately before the tool-result message. -/
theorem results_match_preceding_calls
    (parse : String → Except String Json) (stringify : Json → String)
    (callTool : String → Json → McpCallResult)
    (text : String) (calls : List ToolCall) (prov : String) (f : FormattedMsgs)
    (hfmt : formatToolMessages parse text calls
        (executeMcpTools parse stringify callTool calls) prov = .ok f) :
    toolResultIdsOf f.toolResultMessages = calls.map ToolCall.id ∧
    toolCallIdsOf (f.assistantMessage :: f.toolResultMessages) = calls.map ToolCall.id ∧
    (∀ p : Payload, baseProviderOf p = "anthropic" →
        (appendTurns p text f).messages
          = p.messages ++ [f.assistantMessage] ++ f.toolResultMessages) := by
  have hids := executeMcpTools_ids parse stringify callTool calls
  have happend : ∀ p : Payload, baseProviderOf p = "anthropic" →
      (appendTurns p text f).messages
        = p.messages ++ [f.assistantMessage] ++ f.toolResultMessages := by
    intro p hp
    simp [appendTurns, hp]
  by_cases hprov : prov = "anthropic"
  · rw [formatToolMessages, if_pos hprov] at hfmt
    rcases hm : buildToolUseBlocks parse calls with e | blocks <;> rw [hm] at hfmt
    · cases hfmt
    · simp only [Except.ok.injEq] at hfmt
      subst hfmt
      have hblocks := buildToolUseBlocks_ok parse calls blocks hm
      refine ⟨?_, ?_, happend⟩
      · simp only [toolResultIdsOf, List.map_cons, List.map_nil, List.flatten,
          toolResultIdsOfMsg, List.append_nil]
        rw [toolResultIdsOfBlocks_results]
        simpa using hids
      · have htext : toolUseIdsOfBlocks
            (if (jsTrim text != "") = true then [ContentBlock.text text] else []) = [] := by
          split <;> rfl
        simp only [toolCallIdsOf, List.map_cons, List.map_nil, List.flatten,
          toolCallIdsOfMsg, List.append_nil]
        rw [toolUseIdsOfBlocks_append, toolUseIdsOfBlocks_results, htext, hblocks.1]
        simp
  · rw [formatToolMessages, if_neg hprov] at hfmt
    rcases hm : buildFunctionCallOutputs (executeMcpTools parse stringify callTool calls)
        with e | outs <;> simp only [hm] at hfmt
    · cases hfmt
    · simp only [Except.ok.injEq] at hfmt
      subst hfmt
      have houts := buildFunctionCallOutputs_ok
        (executeMcpTools parse stringify callTool calls) outs hm
      subst houts
      refine ⟨?_, ?_, happend⟩
      · rw [toolResultIdsOf_append, toolResultIdsOf_functionCalls,
          toolResultIdsOf_outputs, hids]
        simp
      · show toolCallIdsOf (Msg.plain "assistant" text :: _) = _
        simp only [toolCallIdsOf, List.map_cons, toolCallIdsOfMsg, List.flatten,
          List.nil_append]
        have h2 := toolCallIdsOf_functionCalls calls
        have h3 := toolCallIdsOf_outputs (executeMcpTools parse stringify callTool calls)
        simp only [toolCallIdsOf] at h2 h3
        rw [List.map_append, List.flatten_append, h2, h3]
        simp

/-- Witness for C8: the dice-roll call formatted with its executed result
references exactly the id `t1`. -/
theorem results_match_preceding_calls_witness :
    toolResultIdsOf fmtW.toolResultMessages = [tcW].map ToolCall.id :=
  (results_match_preceding_calls parseOkW stringifyW callToolThrowW "hi" [tcW]
    "anthropic" fmtW rfl).1

/-! ### Failure-set bookkeeping -/

theorem setAdd_mem (l : List String) (s x : String) :
    x ∈ setAdd l s ↔ x ∈ l ∨ x = s := by
  unfold setAdd
  by_cases h : s ∈ l
  · rw [if_pos h]
    constructor
    · exact Or.inl
    · rintro (hx | rfl)
      · exact hx
      · exact h
  · rw [if_neg h]
    simp [List.mem_append]

theorem mem_failedFold (s : String) :
    ∀ (L : List (ToolResult × ToolCall)) (acc : List String),
      s ∈ L.foldl (fun acc rc =>
          if strStartsWith rc.1.content "Error" then setAdd acc (sigOf rc.2) else acc) acc
        ↔ s ∈ acc ∨ ∃ rc ∈ L, strStartsWith rc.1.content "Error" = true ∧ sigOf rc.2 = s := by
  intro L
  induction L with
  | nil => intro acc; simp
  | cons rc rest ih =>
    intro acc
    cases h : strStartsWith rc.1.content "Error"
    · simp only [List.foldl_cons, h, Bool.false_eq_true, if_false, ih, List.mem_cons]
      constructor
      · rintro (ha | ⟨rc', hm, hsw, hsig⟩)
        · exact Or.inl ha
        · exact Or.inr ⟨rc', Or.inr hm, hsw, hsig⟩
      · rintro (ha | ⟨rc', (rfl | hm), hsw, hsig⟩)
        · exact Or.inl ha
        · rw [hsw] at h; cases h
        · exact Or.inr ⟨rc', hm, hsw, hsig⟩
    · simp only [List.foldl_cons, h, if_true, ih, setAdd_mem, List.mem_cons]
      constructor
      · rintro ((ha | hs) | ⟨rc', hm, hsw, hsig⟩)
        · exact Or.inl ha
        · exact Or.inr ⟨rc, Or.inl rfl, h, hs.symm⟩
        · exact Or.inr ⟨rc', Or.inr hm, hsw, hsig⟩
      · rintro (ha | ⟨rc', (rfl | hm), hsw, hsig⟩)
        · exact Or.inl (Or.inl ha)
        · exact Or.inl (Or.inr hsig.symm)
        · exact Or.inr ⟨rc', hm, hsw, hsig⟩

theorem mem_updateFailed (failed : List String) (calls : List ToolCall)
    (results : List ToolResult) (s : String) :
    s ∈ updateFailed failed calls results
      ↔ s ∈ failed ∨ ∃ rc ∈ results.zip calls,
          strStartsWith rc.1.content "Error" = true ∧ sigOf rc.2 = s :=
  mem_failedFold s (results.zip calls) failed

theorem updateFailed_subset (failed : List String) (calls : List ToolCall)
    (results : List ToolResult) (s : String) (h : s ∈ failed) :
    s ∈ updateFailed failed calls results :=
  (mem_updateFailed failed calls results s).mpr (Or.inl h)

theorem failedFold_no_error :
    ∀ (L : List (ToolResult × ToolCall)) (acc : List String),
      (∀ rc ∈ L, strStartsWith rc.1.content "Error" = false) →
      L.foldl (fun acc rc =>
          if strStartsWith rc.1.content "Error" then setAdd acc (sigOf rc.2) else acc) acc = acc := by
  intro L
  induction L with
  | nil => intro acc _; rfl
  | cons rc rest ih =>
    intro acc h
    have h0 := h rc (List.mem_cons_self _ _)
    simp only [List.foldl_cons, h0, Bool.false_eq_true, if_false]
    exact ih acc (fun rc' hm => h rc' (List.mem_cons_of_mem _ hm))

theorem zip_map_self {α β : Type} (f : α → β) :
    ∀ l : List α, (l.map f).zip l = l.map (fun x => (f x, x)) := by
  intro l
  induction l with
  | nil => rfl
  | cons x rest ih => simp [ih]

/-! ### Chain facts over the loop trace -/

theorem chainOK_suffix (parse : String → Except String Json) (stringify : Json → String)
    (callTool : String → Json → McpCallResult) :
    ∀ (ts1 rest : List IterTrace) (f : List String),
      chainOK parse stringify callTool f (ts1 ++ rest) →
      ∃ g, chainOK parse stringify callTool g rest := by
  intro ts1
  induction ts1 with
  | nil => intro rest f h; exact ⟨f, h⟩
  | cons e ts1' ih => intro rest f h; exact ih rest e.failedAfter h.2.2

theorem chainOK_entries (parse : String → Except String Json) (stringify : Json → String)
    (callTool : String → Json → McpCallResult) :
    ∀ (ts : List IterTrace) (f : List String),
      chainOK parse stringify callTool f ts → ∀ e ∈ ts, entryOK parse stringify callTool e := by
  intro ts
  induction ts with
  | nil => intro f _ e he; cases he
  | cons e0 rest ih =>
    intro f h e he
    rcases List.mem_cons.mp he with rfl | hm
    · exact h.2.1
    · exact ih e0.failedAfter h.2.2 e hm

theorem chainOK_persist (parse : String → Except String Json) (stringify : Json → String)
    (callTool : String → Json → McpCallResult) :
    ∀ (ts2 : List IterTrace) (ts3 : List IterTrace) (e2 : IterTrace)
      (f : List String) (s : String),
      chainOK parse stringify callTool f (ts2 ++ e2 :: ts3) → s ∈ f →
      s ∈ e2.failedBefore := by
  intro ts2
  induction ts2 with
  | nil => intro ts3 e2 f s h hs; rw [h.1]; exact hs
  | cons e ts2' ih =>
    intro ts3 e2 f s h hs
    refine ih ts3 e2 e.failedAfter s h.2.2 ?_
    rw [h.2.1.2.2]
    exact updateFailed_subset _ _ _ s (h.1 ▸ hs)

theorem entryOK_failedAfter_iff (parse : String → Except String Json)
    (stringify : Json → String) (callTool : String → Json → McpCallResult)
    (e : IterTrace) (hE : entryOK parse stringify callTool e) (s : String) :
    s ∈ e.failedAfter ↔ s ∈ e.failedBefore ∨ ∃ tc ∈ e.executed,
      strStartsWith (executeOneTool parse stringify callTool tc).content "Error" = true ∧
      sigOf tc = s := by
  rw [hE.2.2, mem_updateFailed, hE.2.1, executeMcpTools_eq_map, zip_map_self]
  constructor
  · rintro (hb | ⟨rc, hm, hsw, hsig⟩)
    · exact Or.inl hb
    · rcases List.mem_map.mp hm with ⟨tc, htc, rfl⟩
      exact Or.inr ⟨tc, htc, hsw, hsig⟩
  · rintro (hb | ⟨tc, htc, hsw, hsig⟩)
    · exact Or.inl hb
    · exact Or.inr ⟨(executeOneTool parse stringify callTool tc, tc),
        List.mem_map.mpr ⟨tc, htc, rfl⟩, hsw, hsig⟩


theorem loopGo_spec (parse : String → Except String Json) (stringify : Json → String)
    (callTool : String → Json → McpCallResult) (oracle : Payload → Nat → IterOut) :
    ∀ (fuel iter : Nat) (p : Payload) (failed : List String) (acc : List IterTrace),
      ∃ ts : List IterTrace,
        (loopGo parse stringify callTool oracle fuel iter p failed acc).trace
            = acc.reverse ++ ts ∧
        chainOK parse stringify callTool failed ts ∧
        (∀ ts1 e ts2, ts = ts1 ++ e :: ts2 → e.executed = [] →
            ts2 = [] ∧
            (loopGo parse stringify callTool oracle fuel iter p failed acc).stop
              = .loopBreak ∧
            (loopGo parse stringify callTool oracle fuel iter p failed acc).payload
              = e.payloadBefore) := by
  intro fuel iter p failed acc
  induction fuel, iter, p, failed, acc using loopGo.induct parse stringify callTool oracle with
  | case1 iter p failed acc =>
    refine ⟨[], by simp [loopGo], trivial, ?_⟩
    intro ts1 e ts2 h
    exact absurd h (by simp)
  | case2 fuel iter p failed acc iterL outL h1 =>
    rw [show outL = oracle p (iter + 1) from rfl] at h1
    refine ⟨[], ?_, trivial, ?_⟩
    · simp only [loopGo]
      rw [if_pos h1]
      simp
    · intro ts1 e ts2 h
      exact absurd h (by simp)
  | case3 fuel iter p failed acc iterL outL h1 h2 =>
    rw [show outL = oracle p (iter + 1) from rfl] at h1 h2
    refine ⟨[], ?_, trivial, ?_⟩
    · simp only [loopGo]
      rw [if_neg h1, if_pos h2]
      simp
    · intro ts1 e ts2 h
      exact absurd h (by simp)
  | case4 fuel iter p failed acc iterL outL h1 h2 newCallsL h3 =>
    rw [show outL = oracle p (iter + 1) from rfl] at h1 h2
    rw [show newCallsL = List.filter (fun tc => !failed.contains (sigOf tc))
        (oracle p (iter + 1)).completedCalls from rfl] at h3
    have hnil : List.filter (fun tc => !failed.contains (sigOf tc))
        (oracle p (iter + 1)).completedCalls = [] := List.isEmpty_iff.mp h3
    have hred : loopGo parse stringify callTool oracle (fuel + 1) iter p failed acc
        = { payload := p,
            trace := acc.reverse ++
              [{ payloadBefore := p, failedBefore := failed,
                 completed := (oracle p (iter + 1)).completedCalls,
                 executed := [], results := [], failedAfter := failed }],
            stop := .loopBreak, iterations := iter + 1, doneCalled := true } := by
      simp only [loopGo]
      rw [if_neg h1, if_neg h2, if_pos h3]
    refine ⟨[{ payloadBefore := p, failedBefore := failed,
               completed := (oracle p (iter + 1)).completedCalls,
               executed := [], results := [], failedAfter := failed }],
           by rw [hred], ⟨rfl, ⟨hnil.symm, rfl, rfl⟩, trivial⟩, ?_⟩
    intro ts1 e ts2 h _
    cases ts1 with
    | nil =>
      simp only [List.nil_append, List.cons.injEq] at h
      rcases h with ⟨rfl, rfl⟩
      exact ⟨rfl, by rw [hred], by rw [hred]⟩
    | cons e0 ts1' =>
      simp only [List.cons_append, List.cons.injEq] at h
      exact absurd h.2 (by simp)
  | case5 fuel iter p failed acc iterL outL h1 h2 newCallsL h3 resultsL e hfmt =>
    rw [show outL = oracle p (iter + 1) from rfl] at h1 h2
    rw [show newCallsL = List.filter (fun tc => !failed.contains (sigOf tc))
        (oracle p (iter + 1)).completedCalls from rfl] at h3
    rw [show resultsL = executeMcpTools parse stringify callTool
        (List.filter (fun tc => !failed.contains (sigOf tc))
          (oracle p (iter + 1)).completedCalls) from rfl,
      show newCallsL = List.filter (fun tc => !failed.contains (sigOf tc))
        (oracle p (iter + 1)).completedCalls from rfl,
      show outL = oracle p (iter + 1) from rfl] at hfmt
    have hne : List.filter (fun tc => !failed.contains (sigOf tc))
        (oracle p (iter + 1)).completedCalls ≠ [] := by
      intro hz
      rw [hz] at h3
      exact h3 rfl
    have hred : loopGo parse stringify callTool oracle (fuel + 1) iter p failed acc
        = { payload := p,
            trace :=
              ({ payloadBefore := p, failedBefore := failed,
                 completed := (oracle p (iter + 1)).completedCalls,
                 executed := List.filter (fun tc => !failed.contains (sigOf tc))
                   (oracle p (iter + 1)).completedCalls,
                 results := executeMcpTools parse stringify callTool
                   (List.filter (fun tc => !failed.contains (sigOf tc))
                     (oracle p (iter + 1)).completedCalls),
                 failedAfter := updateFailed failed
                   (List.filter (fun tc => !failed.contains (sigOf tc))
                     (oracle p (iter + 1)).completedCalls)
                   (executeMcpTools parse stringify callTool
                     (List.filter (fun tc => !failed.contains (sigOf tc))
                       (oracle p (iter + 1)).completedCalls)) } :: acc).reverse,
            stop := .formatError e, iterations := iter + 1, doneCalled := true } := by
      simp only [loopGo]
      rw [if_neg h1, if_neg h2, if_neg h3, hfmt]
    refine ⟨[{ payloadBefore := p, failedBefore := failed,
               completed := (oracle p (iter + 1)).completedCalls,
               executed := List.filter (fun tc => !failed.contains (sigOf tc))
                 (oracle p (iter + 1)).completedCalls,
               results := executeMcpTools parse stringify callTool
                 (List.filter (fun tc => !failed.contains (sigOf tc))
                   (oracle p (iter + 1)).completedCalls),
               failedAfter := updateFailed failed
                 (List.filter (fun tc => !failed.contains (sigOf tc))
                   (oracle p (iter + 1)).completedCalls)
                 (executeMcpTools parse stringify callTool
                   (List.filter (fun tc => !failed.contains (sigOf tc))
                     (oracle p (iter + 1)).completedCalls)) }],
           by rw [hred]; simp, ⟨rfl, ⟨rfl, rfl, rfl⟩, trivial⟩, ?_⟩
    intro ts1 e' ts2 h hexec
    cases ts1 with
    | nil =>
      simp only [List.nil_append, List.cons.injEq] at h
      rcases h with ⟨rfl, rfl⟩
      exact absurd hexec hne
    | cons e0 ts1' =>
      simp only [List.cons_append, List.cons.injEq] at h
      exact absurd h.2 (by simp)
  | case6 fuel iter p failed acc iterL outL h1 h2 newCallsL h3 resultsL failedL entryL f hfmt ih =>
    rw [show outL = oracle p (iter + 1) from rfl] at h1 h2
    rw [show newCallsL = List.filter (fun tc => !failed.contains (sigOf tc))
        (oracle p (iter + 1)).completedCalls from rfl] at h3
    rw [show resultsL = executeMcpTools parse stringify callTool
        (List.filter (fun tc => !failed.contains (sigOf tc))
          (oracle p (iter + 1)).completedCalls) from rfl,
      show newCallsL = List.filter (fun tc => !failed.contains (sigOf tc))
        (oracle p (iter + 1)).completedCalls from rfl,
      show outL = oracle p (iter + 1) from rfl] at hfmt
    have ih' : ∃ ts : List IterTrace,
        (loopGo parse stringify callTool oracle fuel (iter + 1)
            (appendTurns p (oracle p (iter + 1)).fullText f)
            (updateFailed failed
              (List.filter (fun tc => !failed.contains (sigOf tc))
                (oracle p (iter + 1)).completedCalls)
              (executeMcpTools parse stringify callTool
                (List.filter (fun tc => !failed.contains (sigOf tc))
                  (oracle p (iter + 1)).completedCalls)))
            ({ payloadBefore := p, failedBefore := failed,
               completed := (oracle p (iter + 1)).completedCalls,
               executed := List.filter (fun tc => !failed.contains (sigOf tc))
                 (oracle p (iter + 1)).completedCalls,
               results := executeMcpTools parse stringify callTool
                 (List.filter (fun tc => !failed.contains (sigOf tc))
                   (oracle p (iter + 1)).completedCalls),
               failedAfter := updateFailed failed
                 (List.filter (fun tc => !failed.contains (sigOf tc))
                   (oracle p (iter + 1)).completedCalls)
                 (executeMcpTools parse stringify callTool
                   (List.filter (fun tc => !failed.contains (sigOf tc))
                     (oracle p (iter + 1)).completedCalls)) } :: acc)).trace
            = ({ payloadBefore := p, failedBefore := failed,
                 completed := (oracle p (iter + 1)).completedCalls,
                 executed := List.filter (fun tc => !failed.contains (sigOf tc))
                   (oracle p (iter + 1)).completedCalls,
                 results := executeMcpTools parse stringify callTool
                   (List.filter (fun tc => !failed.contains (sigOf tc))
                     (oracle p (iter + 1)).completedCalls),
                 failedAfter := updateFailed failed
                   (List.filter (fun tc => !failed.contains (sigOf tc))
                     (oracle p (iter + 1)).completedCalls)
                   (executeMcpTools parse stringify callTool
                     (List.filter (fun tc => !failed.contains (sigOf tc))
                       (oracle p (iter + 1)).completedCalls)) } :: acc).reverse ++ ts ∧
        chainOK parse stringify callTool
          (updateFailed failed
            (List.filter (fun tc => !failed.contains (sigOf tc))
              (oracle p (iter + 1)).completedCalls)
            (executeMcpTools parse stringify callTool
              (List.filter (fun tc => !failed.contains (sigOf tc))
                (oracle p (iter + 1)).completedCalls))) ts ∧
        (∀ ts1 e ts2, ts = ts1 ++ e :: ts2 → e.executed = [] →
            ts2 = [] ∧
            (loopGo parse stringify callTool oracle fuel (iter + 1)
                (appendTurns p (oracle p (iter + 1)).fullText f)
                (updateFailed failed
                  (List.filter (fun tc => !failed.contains (sigOf tc))
                    (oracle p (iter + 1)).completedCalls)
                  (executeMcpTools parse stringify callTool
                    (List.filter (fun tc => !failed.contains (sigOf tc))
                      (oracle p (iter + 1)).completedCalls)))
                ({ payloadBefore := p, failedBefore := failed,
                   completed := (oracle p (iter + 1)).completedCalls,
                   executed := List.filter (fun tc => !failed.contains (sigOf tc))
                     (oracle p (iter + 1)).completedCalls,
                   results := executeMcpTools parse stringify callTool
                     (List.filter (fun tc => !failed.contains (sigOf tc))
                       (oracle p (iter + 1)).completedCalls),
                   failedAfter := updateFailed failed
                     (List.filter (fun tc => !failed.contains (sigOf tc))
                       (oracle p (iter + 1)).completedCalls)
                     (executeMcpTools parse stringify callTool
                       (List.filter (fun tc => !failed.contains (sigOf tc))
                         (oracle p (iter + 1)).completedCalls)) } :: acc)).stop
              = .loopBreak ∧
            (loopGo parse stringify callTool oracle fuel (iter + 1)
                (appendTurns p (oracle p (iter + 1)).fullText f)
                (updateFailed failed
                  (List.filter (fun tc => !failed.contains (sigOf tc))
                    (oracle p (iter + 1)).completedCalls)
                  (executeMcpTools parse stringify callTool
                    (List.filter (fun tc => !failed.contains (sigOf tc))
                      (oracle p (iter + 1)).completedCalls)))
                ({ payloadBefore := p, failedBefore := failed,
                   completed := (oracle p (iter + 1)).completedCalls,
                   executed := List.filter (fun tc => !failed.contains (sigOf tc))
                     (oracle p (iter + 1)).completedCalls,
                   results := executeMcpTools parse stringify callTool
                     (List.filter (fun tc => !failed.contains (sigOf tc))
                       (oracle p (iter + 1)).completedCalls),
                   failedAfter := updateFailed failed
                     (List.filter (fun tc => !failed.contains (sigOf tc))
                       (oracle p (iter + 1)).completedCalls)
                     (executeMcpTools parse stringify callTool
                       (List.filter (fun tc => !failed.contains (sigOf tc))
                         (oracle p (iter + 1)).completedCalls)) } :: acc)).payload
              = e.payloadBefore) := ih
    obtain ⟨ts', htr, hch, hbk⟩ := ih'
    have h3' : ¬ (List.filter (fun tc => !failed.contains (sigOf tc))
        (oracle p (iter + 1)).completedCalls).isEmpty = true := h3
    have hne : List.filter (fun tc => !failed.contains (sigOf tc))
        (oracle p (iter + 1)).completedCalls ≠ [] := by
      intro hz
      rw [hz] at h3'
      exact h3' rfl
    have hred : loopGo parse stringify callTool oracle (fuel + 1) iter p failed acc
        = loopGo parse stringify callTool oracle fuel (iter + 1)
            (appendTurns p (oracle p (iter + 1)).fullText f)
            (updateFailed failed
              (List.filter (fun tc => !failed.contains (sigOf tc))
                (oracle p (iter + 1)).completedCalls)
              (executeMcpTools parse stringify callTool
                (List.filter (fun tc => !failed.contains (sigOf tc))
                  (oracle p (iter + 1)).completedCalls)))
            ({ payloadBefore := p, failedBefore := failed,
               completed := (oracle p (iter + 1)).completedCalls,
               executed := List.filter (fun tc => !failed.contains (sigOf tc))
                 (oracle p (iter + 1)).completedCalls,
               results := executeMcpTools parse stringify callTool
                 (List.filter (fun tc => !failed.contains (sigOf tc))
                   (oracle p (iter + 1)).completedCalls),
               failedAfter := updateFailed failed
                 (List.filter (fun tc => !failed.contains (sigOf tc))
                   (oracle p (iter + 1)).completedCalls)
                 (executeMcpTools parse stringify callTool
                   (List.filter (fun tc => !failed.contains (sigOf tc))
                     (oracle p (iter + 1)).completedCalls)) } :: acc) := by
      simp only [loopGo]
      rw [if_neg h1, if_neg h2, if_neg h3, hfmt]
    refine ⟨{ payloadBefore := p, failedBefore := failed,
              completed := (oracle p (iter + 1)).completedCalls,
              executed := List.filter (fun tc => !failed.contains (sigOf tc))
                (oracle p (iter + 1)).completedCalls,
              results := executeMcpTools parse stringify callTool
                (List.filter (fun tc => !failed.contains (sigOf tc))
                  (oracle p (iter + 1)).completedCalls),
              failedAfter := updateFailed failed
                (List.filter (fun tc => !failed.contains (sigOf tc))
                  (oracle p (iter + 1)).completedCalls)
                (executeMcpTools parse stringify callTool
                  (List.filter (fun tc => !failed.contains (sigOf tc))
                    (oracle p (iter + 1)).completedCalls)) } :: ts', ?_, ?_, ?_⟩
    · rw [hred, htr]
      simp
    · exact ⟨rfl, ⟨rfl, rfl, rfl⟩, hch⟩
    · intro ts1 e' ts2 h hexec
      cases ts1 with
      | nil =>
        simp only [List.nil_append, List.cons.injEq] at h
        rcases h with ⟨rfl, rfl⟩
        exact absurd hexec hne
      | cons e0 ts1' =>
        simp only [List.cons_append, List.cons.injEq] at h
        obtain ⟨hts2, hstop, hpay⟩ := hbk ts1' e' ts2 h.2 hexec
        exact ⟨hts2, by rw [hred]; exact hstop, by rw [hred]; exact hpay⟩

/-- C1: within one orchestration run the failure-signature set only grows
across each traced iteration; a signature is in the updated set exactly when
it was already present or an executed call with that signature produced a
result whose content starts with the `Error` marker; and once a signature is
in the set after some iteration, no later iteration executes a call with that
signature. -/
theorem failure_signatures_monotonic
    (parse : String → Except String Json) (stringify : Json → String)
    (callTool : String → Json → McpCallResult) (oracle : Payload → Nat → IterOut)
    (payload : Payload) :
    ∀ tr : List IterTrace,
      tr = (openToolAwareChatStream parse stringify callTool oracle payload).trace →
      (∀ e ∈ tr, ∀ s ∈ e.failedBefore, s ∈ e.failedAfter) ∧
      (∀ e ∈ tr, ∀ s : String,
          s ∈ e.failedAfter ↔ s ∈ e.failedBefore ∨ ∃ tc ∈ e.executed,
            strStartsWith (executeOneTool parse stringify callTool tc).content "Error" = true ∧
            sigOf tc = s) ∧
      (∀ ts1 e1 ts2 e2 ts3, tr = ts1 ++ e1 :: (ts2 ++ e2 :: ts3) →
          ∀ s ∈ e1.failedAfter, ∀ tc ∈ e2.executed, sigOf tc ≠ s) := by
  intro tr htr
  obtain ⟨ts, htrace, hchain, _⟩ :=
    loopGo_spec parse stringify callTool oracle maxIterationsDefault 0 payload [] []
  rw [List.reverse_nil, List.nil_append] at htrace
  have hts : tr = ts := by rw [htr]; exact htrace
  subst hts
  refine ⟨?_, ?_, ?_⟩
  · intro e he s hs
    have hE := chainOK_entries parse stringify callTool tr [] hchain e he
    rw [hE.2.2]
    exact updateFailed_subset _ _ _ s hs
  · intro e he s
    exact entryOK_failedAfter_iff parse stringify callTool e
      (chainOK_entries parse stringify callTool tr [] hchain e he) s
  · intro ts1 e1 ts2 e2 ts3 hdec s hs tc htc
    rw [hdec] at hchain
    obtain ⟨g, hch1⟩ := chainOK_suffix parse stringify callTool ts1
      (e1 :: (ts2 ++ e2 :: ts3)) [] hchain
    have hch2 := hch1.2.2
    have hsb := chainOK_persist parse stringify callTool ts2 ts3 e2
      e1.failedAfter s hch2 hs
    have hE2 := chainOK_entries parse stringify callTool (ts2 ++ e2 :: ts3)
      e1.failedAfter hch2 e2 (by simp)
    rw [hE2.1] at htc
    have hmem := List.mem_filter.mp htc
    have hnot : sigOf tc ∉ e2.failedBefore := by simpa using hmem.2
    intro heq
    exact hnot (heq ▸ hsb)

/-- Witness for C1: in the concrete run the dice-roll signature enters the
failure set in the first iteration because its executed result is
`Error`-marked. -/
theorem failure_signatures_witness :
    "roll_dice:\x7b\"sides\":20\x7d" ∈ diceTrace0W.failedAfter := by
  have h := failure_signatures_monotonic parseDiceW stringifyW callToolThrowW
    oracleDiceW payloadAW resDiceW.trace rfl
  exact (h.2.1 diceTrace0W (by decide) _).mpr
    (Or.inr ⟨tcW, by decide, by decide, by decide⟩)

/-- C2: every traced iteration's executed list is the completed list filtered
by the run's failure set before anything runs; and when that filtering
empties a nonempty completed list, the loop stops right there with
`loopBreak`, executes nothing, produces no results, and leaves the
conversation payload exactly as it was before the iteration. -/
theorem loop_breaks_without_executing
    (parse : String → Except String Json) (stringify : Json → String)
    (callTool : String → Json → McpCallResult) (oracle : Payload → Nat → IterOut)
    (payload : Payload) :
    ∀ tr : List IterTrace,
      tr = (openToolAwareChatStream parse stringify callTool oracle payload).trace →
      (∀ e ∈ tr, e.executed
          = e.completed.filter (fun tc => !e.failedBefore.contains (sigOf tc))) ∧
      (∀ ts1 e ts2, tr = ts1 ++ e :: ts2 → e.completed ≠ [] → e.executed = [] →
          ts2 = [] ∧
          (openToolAwareChatStream parse stringify callTool oracle payload).stop
            = .loopBreak ∧
          (openToolAwareChatStream parse stringify callTool oracle payload).payload
            = e.payloadBefore ∧
          e.results = []) := by
  intro tr htr
  obtain ⟨ts, htrace, hchain, hbk⟩ :=
    loopGo_spec parse stringify callTool oracle maxIterationsDefault 0 payload [] []
  rw [List.reverse_nil, List.nil_append] at htrace
  have hts : tr = ts := by rw [htr]; exact htrace
  subst hts
  refine ⟨?_, ?_⟩
  · intro e he
    exact (chainOK_entries parse stringify callTool tr [] hchain e he).1
  · intro ts1 e ts2 hdec _ hexec
    obtain ⟨h1, h2, h3⟩ := hbk ts1 e ts2 hdec hexec
    have hE := chainOK_entries parse stringify callTool tr [] hchain e
      (by rw [hdec]; simp)
    refine ⟨h1, h2, h3, ?_⟩
    rw [hE.2.1, hexec]
    rfl

/-- Witness for C2: the concrete run ends in a loop break on its second
iteration, with nothing executed and the payload untouched by that
iteration. -/
theorem loop_breaks_witness :
    resDiceW.stop = .loopBreak ∧ resDiceW.payload = diceTrace1W.payloadBefore ∧
    diceTrace1W.results = [] := by
  have h := (loop_breaks_without_executing parseDiceW stringifyW callToolThrowW
    oracleDiceW payloadAW resDiceW.trace rfl).2 [diceTrace0W] diceTrace1W []
    (by decide) (by decide) (by decide)
  exact ⟨h.2.1, h.2.2.1, h.2.2.2⟩

/-! ### Iteration ceiling -/

theorem buildToolUseBlocks_isOk (parse : String → Except String Json)
    (hparse : ∀ s, (parse s).isOk = true) :
    ∀ calls : List ToolCall, ∃ bs, buildToolUseBlocks parse calls = .ok bs := by
  intro calls
  induction calls with
  | nil => exact ⟨[], rfl⟩
  | cons tc rest ih =>
    obtain ⟨bs, hbs⟩ := ih
    have h := hparse tc.arguments
    rcases hp : parse tc.arguments with e | v
    · rw [hp] at h
      simp [Except.isOk, Except.toBool] at h
    · exact ⟨ContentBlock.toolUse tc.id tc.name v :: bs, by
        simp only [buildToolUseBlocks, hp, hbs]⟩

theorem formatToolMessages_anthropic_ok (parse : String → Except String Json)
    (hparse : ∀ s, (parse s).isOk = true)
    (text : String) (calls : List ToolCall) (results : List ToolResult) :
    ∃ f, formatToolMessages parse text calls results "anthropic" = .ok f ∧
      f.toolResultMessages = [Msg.blocks "user"
        (results.map (fun r => ContentBlock.toolResult r.tool_call_id r.content))] := by
  obtain ⟨bs, hbs⟩ := buildToolUseBlocks_isOk parse hparse calls
  refine ⟨{ assistantMessage := .blocks "assistant"
              ((if jsTrim text != "" then [ContentBlock.text text] else []) ++ bs),
            toolResultMessages := [Msg.blocks "user"
              (results.map (fun r => ContentBlock.toolResult r.tool_call_id r.content))] },
    ?_, rfl⟩
  rw [formatToolMessages, if_pos rfl, hbs]

theorem loopGo_iterations_le (parse : String → Except String Json)
    (stringify : Json → String) (callTool : String → Json → McpCallResult)
    (oracle : Payload → Nat → IterOut) :
    ∀ (fuel iter : Nat) (p : Payload) (failed : List String) (acc : List IterTrace),
      (loopGo parse stringify callTool oracle fuel iter p failed acc).iterations
        ≤ iter + fuel := by
  intro fuel iter p failed acc
  induction fuel, iter, p, failed, acc using loopGo.induct parse stringify callTool oracle with
  | case1 iter p failed acc => simp [loopGo]
  | case2 fuel iter p failed acc iterL outL h1 =>
    rw [show outL = oracle p (iter + 1) from rfl] at h1
    simp only [loopGo]
    rw [if_pos h1]
    simp
  | case3 fuel iter p failed acc iterL outL h1 h2 =>
    rw [show outL = oracle p (iter + 1) from rfl] at h1 h2
    simp only [loopGo]
    rw [if_neg h1, if_pos h2]
    simp
  | case4 fuel iter p failed acc iterL outL h1 h2 newCallsL h3 =>
    rw [show outL = oracle p (iter + 1) from rfl] at h1 h2
    rw [show newCallsL = List.filter (fun tc => !failed.contains (sigOf tc))
        (oracle p (iter + 1)).completedCalls from rfl] at h3
    simp only [loopGo]
    rw [if_neg h1, if_neg h2, if_pos h3]
    simp
  | case5 fuel iter p failed acc iterL outL h1 h2 newCallsL h3 resultsL e hfmt =>
    rw [show outL = oracle p (iter + 1) from rfl] at h1 h2
    rw [show newCallsL = List.filter (fun tc => !failed.contains (sigOf tc))
        (oracle p (iter + 1)).completedCalls from rfl] at h3
    rw [show resultsL = executeMcpTools parse stringify callTool
        (List.filter (fun tc => !failed.contains (sigOf tc))
          (oracle p (iter + 1)).completedCalls) from rfl,
      show newCallsL = List.filter (fun tc => !failed.contains (sigOf tc))
        (oracle p (iter + 1)).completedCalls from rfl,
      show outL = oracle p (iter + 1) from rfl] at hfmt
    simp only [loopGo]
    rw [if_neg h1, if_neg h2, if_neg h3, hfmt]
    simp
  | case6 fuel iter p failed acc iterL outL h1 h2 newCallsL h3 resultsL failedL entryL f hfmt ih =>
    rw [show outL = oracle p (iter + 1) from rfl] at h1 h2
    rw [show newCallsL = List.filter (fun tc => !failed.contains (sigOf tc))
        (oracle p (iter + 1)).completedCalls from rfl] at h3
    rw [show resultsL = executeMcpTools parse stringify callTool
        (List.filter (fun tc => !failed.contains (sigOf tc))
          (oracle p (iter + 1)).completedCalls) from rfl,
      show newCallsL = List.filter (fun tc => !failed.contains (sigOf tc))
        (oracle p (iter + 1)).completedCalls from rfl,
      show outL = oracle p (iter + 1) from rfl] at hfmt
    have ih' : (loopGo parse stringify callTool oracle fuel (iter + 1)
        (appendTurns p (oracle p (iter + 1)).fullText f)
        (updateFailed failed
          (List.filter (fun tc => !failed.contains (sigOf tc))
            (oracle p (iter + 1)).completedCalls)
          (executeMcpTools parse stringify callTool
            (List.filter (fun tc => !failed.contains (sigOf tc))
              (oracle p (iter + 1)).completedCalls)))
        ({ payloadBefore := p, failedBefore := failed,
           completed := (oracle p (iter + 1)).completedCalls,
           executed := List.filter (fun tc => !failed.contains (sigOf tc))
             (oracle p (iter + 1)).completedCalls,
           results := executeMcpTools parse stringify callTool
             (List.filter (fun tc => !failed.contains (sigOf tc))
               (oracle p (iter + 1)).completedCalls),
           failedAfter := updateFailed failed
             (List.filter (fun tc => !failed.contains (sigOf tc))
               (oracle p (iter + 1)).completedCalls)
             (executeMcpTools parse stringify callTool
               (List.filter (fun tc => !failed.contains (sigOf tc))
                 (oracle p (iter + 1)).completedCalls)) } :: acc)).iterations
        ≤ (iter + 1) + fuel := ih
    simp only [loopGo]
    rw [if_neg h1, if_neg h2, if_neg h3, hfmt]
    have harith : (iter + 1) + fuel = iter + (fuel + 1) := by omega
    rw [harith] at ih'
    exact ih'

theorem loopGo_truncates (parse : String → Except String Json)
    (stringify : Json → String) (callTool : String → Json → McpCallResult)
    (oracle : Payload → Nat → IterOut)
    (hparse : ∀ s, (parse s).isOk = true)
    (horacle : ∀ p i, (oracle p i).hasToolCalls = true ∧ (oracle p i).completedCalls ≠ [])
    (hnoerr : ∀ tc : ToolCall,
        strStartsWith (executeOneTool parse stringify callTool tc).content "Error" = false) :
    ∀ (fuel iter : Nat) (p : Payload) (acc : List IterTrace),
      p.provider = "anthropic" →
      (loopGo parse stringify callTool oracle fuel iter p [] acc).stop = .maxIterations ∧
      (loopGo parse stringify callTool oracle fuel iter p [] acc).iterations = iter + fuel ∧
      (loopGo parse stringify callTool oracle fuel iter p [] acc).trace.length
        = acc.length + fuel ∧
      (loopGo parse stringify callTool oracle fuel iter p [] acc).doneCalled = true ∧
      (loopGo parse stringify callTool oracle fuel iter p [] acc).payload.messages.length
        = p.messages.length + 2 * fuel ∧
      p.messages <+:
        (loopGo parse stringify callTool oracle fuel iter p [] acc).payload.messages := by
  intro fuel
  induction fuel with
  | zero =>
    intro iter p acc hp
    exact ⟨rfl, rfl, by simp [loopGo], rfl, rfl, List.prefix_refl _⟩
  | succ fuel ih =>
    intro iter p acc hp
    have hbp : baseProviderOf p = "anthropic" := by
      simp [baseProviderOf, hp]
    have hout := horacle p (iter + 1)
    have h1 : ¬ ((!(oracle p (iter + 1)).hasToolCalls) = true) := by
      rw [hout.1]
      simp
    have h2 : ¬ ((oracle p (iter + 1)).completedCalls.isEmpty = true) := by
      rw [List.isEmpty_iff]
      exact hout.2
    have hfilter : List.filter (fun tc => !([] : List String).contains (sigOf tc))
        (oracle p (iter + 1)).completedCalls = (oracle p (iter + 1)).completedCalls :=
      List.filter_eq_self.mpr (fun a _ => rfl)
    have h3 : ¬ ((List.filter (fun tc => !([] : List String).contains (sigOf tc))
        (oracle p (iter + 1)).completedCalls).isEmpty = true) := by
      rw [hfilter, List.isEmpty_iff]
      exact hout.2
    have hupd : updateFailed []
        (List.filter (fun tc => !([] : List String).contains (sigOf tc))
          (oracle p (iter + 1)).completedCalls)
        (executeMcpTools parse stringify callTool
          (List.filter (fun tc => !([] : List String).contains (sigOf tc))
            (oracle p (iter + 1)).completedCalls)) = [] := by
      unfold updateFailed
      apply failedFold_no_error
      intro rc hm
      rw [executeMcpTools_eq_map, zip_map_self] at hm
      rcases List.mem_map.mp hm with ⟨tc, _, rfl⟩
      exact hnoerr tc
    obtain ⟨f, hfmt0, hresmsgs⟩ := formatToolMessages_anthropic_ok parse hparse
      (oracle p (iter + 1)).fullText
      (List.filter (fun tc => !([] : List String).contains (sigOf tc))
        (oracle p (iter + 1)).completedCalls)
      (executeMcpTools parse stringify callTool
        (List.filter (fun tc => !([] : List String).contains (sigOf tc))
          (oracle p (iter + 1)).completedCalls))
    have hfmt : formatToolMessages parse (oracle p (iter + 1)).fullText
        (List.filter (fun tc => !([] : List String).contains (sigOf tc))
          (oracle p (iter + 1)).completedCalls)
        (executeMcpTools parse stringify callTool
          (List.filter (fun tc => !([] : List String).contains (sigOf tc))
            (oracle p (iter + 1)).completedCalls))
        (baseProviderOf p) = .ok f := by
      rw [hbp]
      exact hfmt0
    have hred : loopGo parse stringify callTool oracle (fuel + 1) iter p [] acc
        = loopGo parse stringify callTool oracle fuel (iter + 1)
            (appendTurns p (oracle p (iter + 1)).fullText f)
            (updateFailed []
              (List.filter (fun tc => !([] : List String).contains (sigOf tc))
                (oracle p (iter + 1)).completedCalls)
              (executeMcpTools parse stringify callTool
                (List.filter (fun tc => !([] : List String).contains (sigOf tc))
                  (oracle p (iter + 1)).completedCalls)))
            ({ payloadBefore := p, failedBefore := [],
               completed := (oracle p (iter + 1)).completedCalls,
               executed := List.filter (fun tc => !([] : List String).contains (sigOf tc))
                 (oracle p (iter + 1)).completedCalls,
               results := executeMcpTools parse stringify callTool
                 (List.filter (fun tc => !([] : List String).contains (sigOf tc))
                   (oracle p (iter + 1)).completedCalls),
               failedAfter := updateFailed []
                 (List.filter (fun tc => !([] : List String).contains (sigOf tc))
                   (oracle p (iter + 1)).completedCalls)
                 (executeMcpTools parse stringify callTool
                   (List.filter (fun tc => !([] : List String).contains (sigOf tc))
                     (oracle p (iter + 1)).completedCalls)) } :: acc) := by
      simp only [loopGo]
      rw [if_neg h1, if_neg h2, if_neg h3, hfmt]
    have happ : appendTurns p (oracle p (iter + 1)).fullText f
        = { p with messages := p.messages ++ [f.assistantMessage] ++ f.toolResultMessages } := by
      rw [appendTurns, if_pos hbp]
    have hp' : (appendTurns p (oracle p (iter + 1)).fullText f).provider = "anthropic" := by
      rw [happ]
      exact hp
    rw [hred, hupd]
    obtain ⟨ha, hb, hc, hd, he, hf⟩ := ih (iter + 1)
      (appendTurns p (oracle p (iter + 1)).fullText f)
      ({ payloadBefore := p, failedBefore := [],
         completed := (oracle p (iter + 1)).completedCalls,
         executed := List.filter (fun tc => !([] : List String).contains (sigOf tc))
           (oracle p (iter + 1)).completedCalls,
         results := executeMcpTools parse stringify callTool
           (List.filter (fun tc => !([] : List String).contains (sigOf tc))
             (oracle p (iter + 1)).completedCalls),
         failedAfter := [] } :: acc) hp'
    refine ⟨ha, ?_, ?_, hd, ?_, ?_⟩
    · rw [hb]
      omega
    · rw [hc]
      simp only [List.length_cons]
      omega
    · have hlen : (appendTurns p (oracle p (iter + 1)).fullText f).messages.length
          = p.messages.length + 2 := by
        rw [happ]
        simp [hresmsgs]
      rw [he, hlen]
      omega
    · refine List.IsPrefix.trans ?_ hf
      rw [happ]
      rw [List.append_assoc]
      exact List.prefix_append _ _

/-- C7: every orchestration run performs at most 20 iterations (the default
ceiling); when the model keeps requesting fresh successful tool calls on
every turn, the run stops after exactly 20 iterations in the truncation
condition, the caller's done callback is still invoked, and the conversation
payload retains the two turns appended by each of the 20 completed
iterations. -/
theorem loop_hits_iteration_ceiling
    (parse : String → Except String Json) (stringify : Json → String)
    (callTool : String → Json → McpCallResult) (oracle : Payload → Nat → IterOut)
    (payload : Payload)
    (hprov : payload.provider = "anthropic")
    (hparse : ∀ s, (parse s).isOk = true)
    (horacle : ∀ p i, (oracle p i).hasToolCalls = true ∧ (oracle p i).completedCalls ≠ [])
    (hnoerr : ∀ tc : ToolCall,
        strStartsWith (executeOneTool parse stringify callTool tc).content "Error" = false) :
    (∀ (oracle' : Payload → Nat → IterOut) (payload' : Payload),
        (openToolAwareChatStream parse stringify callTool oracle' payload').iterations
          ≤ maxIterationsDefault) ∧
    (openToolAwareChatStream parse stringify callTool oracle payload).iterations = 20 ∧
    (openToolAwareChatStream parse stringify callTool oracle payload).stop
      = .maxIterations ∧
    (openToolAwareChatStream parse stringify callTool oracle payload).doneCalled = true ∧
    (openToolAwareChatStream parse stringify callTool oracle payload).trace.length = 20 ∧
    (openToolAwareChatStream parse stringify callTool oracle payload).payload.messages.length
      = payload.messages.length + 40 ∧
    payload.messages <+:
      (openToolAwareChatStream parse stringify callTool oracle payload).payload.messages := by
  have h := loopGo_truncates parse stringify callTool oracle hparse horacle hnoerr
    maxIterationsDefault 0 payload [] hprov
  exact ⟨fun oracle' payload' =>
      loopGo_iterations_le parse stringify callTool oracle' maxIterationsDefault 0 payload' [] [],
    h.2.1, h.1, h.2.2.2.1, h.2.2.1, h.2.2.2.2.1, h.2.2.2.2.2⟩

/-- Witness for C7: the concrete always-successful run stops after 20
iterations in the truncation condition with the done callback invoked. -/
theorem loop_hits_ceiling_witness :
    resTruncW.iterations = 20 ∧ resTruncW.stop = .maxIterations ∧
    resTruncW.doneCalled = true := by
  have h := loop_hits_iteration_ceiling parseOkW stringifyW callToolOkW oracleDiceW
    payloadAW rfl (fun _ => rfl)
    (fun p i => ⟨rfl, by
      show ([{ id := "t1", name := "roll_dice", arguments := "\x7b\"sides\":20\x7d" }] :
        List ToolCall) ≠ []
      decide⟩)
    (fun tc => by
      show strStartsWith "ok" "Error" = false
      decide)
  exact ⟨h.2.1, h.2.2.1, h.2.2.2.1⟩

/-! ### Client stream: error frames close the source -/

theorem foldl_dispatch_closed :
    ∀ (events : List ClientEvent) (st : ClientState), st.closed = true →
      events.foldl dispatchEvent st = st := by
  intro events
  induction events with
  | nil => intro st _; rfl
  | cons ev rest ih =>
    intro st h
    have hstep : dispatchEvent st ev = st := by
      simp [dispatchEvent, h]
    rw [List.foldl_cons, hstep]
    exact ih st h

theorem dispatch_nonending (st : ClientState) (ev : ClientEvent)
    (hst : st.closed = false) (hev : endsStream ev = false) :
    (dispatchEvent st ev).closed = false ∧
    ∃ add, (dispatchEvent st ev).outputs = st.outputs ++ add ∧
      add.countP isErrorOutput = 0 := by
  cases ev with
  | message text done =>
    simp only [endsStream] at hev
    subst hev
    cases text with
    | none => exact ⟨by simp [dispatchEvent, hst], [], by simp [dispatchEvent, hst], rfl⟩
    | some t =>
      exact ⟨by simp [dispatchEvent, hst], [CallbackCall.onText t],
        by simp [dispatchEvent, hst], rfl⟩
  | messageBad => exact ⟨by simp [dispatchEvent, hst], [], by simp [dispatchEvent, hst], rfl⟩
  | llmError d => cases hev
  | llmErrorBad raw => cases hev
  | anthropicToolUse e =>
    exact ⟨by simp [dispatchEvent, hst], [CallbackCall.onToolUse e],
      by simp [dispatchEvent, hst], rfl⟩
  | anthropicToolUseBad =>
    exact ⟨by simp [dispatchEvent, hst], [], by simp [dispatchEvent, hst], rfl⟩
  | openaiToolUse e =>
    exact ⟨by simp [dispatchEvent, hst], [CallbackCall.onToolUse e],
      by simp [dispatchEvent, hst], rfl⟩
  | openaiToolUseBad =>
    exact ⟨by simp [dispatchEvent, hst], [], by simp [dispatchEvent, hst], rfl⟩
  | sourceError => cases hev

theorem foldl_dispatch_nonending :
    ∀ (events : List ClientEvent) (st : ClientState),
      st.closed = false → (∀ ev ∈ events, endsStream ev = false) →
      (events.foldl dispatchEvent st).closed = false ∧
      ∃ add, (events.foldl dispatchEvent st).outputs = st.outputs ++ add ∧
        add.countP isErrorOutput = 0 := by
  intro events
  induction events with
  | nil => intro st h _; exact ⟨h, [], by simp, rfl⟩
  | cons ev rest ih =>
    intro st hst hall
    obtain ⟨hc1, add1, ho1, hn1⟩ :=
      dispatch_nonending st ev hst (hall ev (List.mem_cons_self _ _))
    obtain ⟨hc2, add2, ho2, hn2⟩ :=
      ih (dispatchEvent st ev) hc1 (fun e he => hall e (List.mem_cons_of_mem _ he))
    refine ⟨hc2, add1 ++ add2, ?_, ?_⟩
    · rw [List.foldl_cons, ho2, ho1, List.append_assoc]
    · rw [List.countP_append, hn1, hn2]

/-- C9: when an explicit vendor error frame reaches a live client, the caller
sees it surfaced exactly once as an `onError`, immediately followed by
`onDone` and the closing of the event source, and no event delivered after
the frame — text, tool events or anything else — produces any further
callback. -/
theorem error_frame_ends_stream (pre post : List ClientEvent) (ev : ClientEvent)
    (hpre : ∀ x ∈ pre, endsStream x = false)
    (herr : isErrorFrame ev = true) :
    runClient (pre ++ ev :: post)
      = { closed := true,
          outputs := (runClient pre).outputs
            ++ [CallbackCall.onError (errOf ev), CallbackCall.onDone] } ∧
    (runClient pre).outputs.countP isErrorOutput = 0 ∧
    (runClient (pre ++ ev :: post)).outputs.countP isErrorOutput = 1 := by
  have h0 := foldl_dispatch_nonending pre { closed := false, outputs := [] } rfl hpre
  have hclosed : (runClient pre).closed = false := h0.1
  have hcount : (runClient pre).outputs.countP isErrorOutput = 0 := by
    obtain ⟨add, ho, hn⟩ := h0.2
    show (List.foldl dispatchEvent { closed := false, outputs := [] } pre).outputs.countP
      isErrorOutput = 0
    rw [ho, List.nil_append]
    exact hn
  have hstate : dispatchEvent (runClient pre) ev
      = { closed := true,
          outputs := (runClient pre).outputs
            ++ [CallbackCall.onError (errOf ev), CallbackCall.onDone] } := by
    cases ev with
    | llmError d => simp [dispatchEvent, hclosed, safeDone, errOf]
    | llmErrorBad raw => simp [dispatchEvent, hclosed, safeDone, errOf]
    | message text done => simp [isErrorFrame] at herr
    | messageBad => simp [isErrorFrame] at herr
    | anthropicToolUse e => simp [isErrorFrame] at herr
    | anthropicToolUseBad => simp [isErrorFrame] at herr
    | openaiToolUse e => simp [isErrorFrame] at herr
    | openaiToolUseBad => simp [isErrorFrame] at herr
    | sourceError => simp [isErrorFrame] at herr
  have hrun : runClient (pre ++ ev :: post)
      = post.foldl dispatchEvent (dispatchEvent (runClient pre) ev) := by
    show List.foldl dispatchEvent { closed := false, outputs := [] } (pre ++ ev :: post) = _
    rw [List.foldl_append, List.foldl_cons]
    rfl
  have hfinal : runClient (pre ++ ev :: post)
      = { closed := true,
          outputs := (runClient pre).outputs
            ++ [CallbackCall.onError (errOf ev), CallbackCall.onDone] } := by
    rw [hrun, hstate]
    exact foldl_dispatch_closed post _ rfl
  refine ⟨hfinal, hcount, ?_⟩
  rw [hfinal]
  show ((runClient pre).outputs
      ++ [CallbackCall.onError (errOf ev), CallbackCall.onDone]).countP isErrorOutput = 1
  rw [List.countP_append, hcount]
  rfl

/-- Witness for C9: a concrete stream with two pre-error events and two
post-error events surfaces the error once and delivers nothing afterwards. -/
theorem error_frame_ends_stream_witness :
    runClient (eventsPreW ++ ClientEvent.llmError "overloaded" :: eventsPostW)
      = { closed := true,
          outputs := (runClient eventsPreW).outputs
            ++ [CallbackCall.onError (.parsed "overloaded"), CallbackCall.onDone] } :=
  (error_frame_ends_stream eventsPreW eventsPostW (.llmError "overloaded")
    (by decide) (by decide)).1

/-! ### Session store: single-use stream sessions -/

theorem storeDelete_not_mem (sid : String) (store : SessionStore) :
    ∀ e ∈ storeDelete sid store, e.1 ≠ sid := by
  intro e he
  have h := List.mem_filter.mp he
  simpa using h.2

theorem storeGet_delete_none (now : Nat) (sid : String) (store : SessionStore) :
    storeGet now sid (storeDelete sid store) = none := by
  unfold storeGet
  cases hf : (liveAt now (storeDelete sid store)).find? (fun e => e.1 == sid) with
  | none => rfl
  | some e =>
    have hmem := List.mem_of_find?_eq_some hf
    have hpred := List.find?_some hf
    have hin : e ∈ storeDelete sid store := (List.mem_filter.mp hmem).1
    exact absurd (by simpa using hpred) (storeDelete_not_mem sid store e hin)

theorem storeGet_expired (now : Nat) (sid : String) (store : SessionStore)
    (hexp : ∀ b t, (sid, b, t) ∈ store → now ≥ t + sessionExpiryMs) :
    storeGet now sid store = none := by
  unfold storeGet
  cases hf : (liveAt now store).find? (fun e => e.1 == sid) with
  | none => rfl
  | some e =>
    have hmem := List.mem_filter.mp (List.mem_of_find?_eq_some hf)
    have hpred : e.1 = sid := by simpa using List.find?_some hf
    have hlive : now < e.2.2 + sessionExpiryMs := by simpa using hmem.2
    have : (sid, e.2.1, e.2.2) ∈ store := by
      rw [← hpred]
      exact hmem.1
    exact absurd (hexp e.2.1 e.2.2 this) (by omega)

theorem storeGet_append_fresh (now : Nat) (sid : String) (store : SessionStore)
    (body : ChatBody) (created : Nat)
    (hfresh : ∀ e ∈ store, e.1 ≠ sid) (hlive : now < created + sessionExpiryMs) :
    storeGet now sid (store ++ [(sid, body, created)]) = some body := by
  unfold storeGet liveAt
  rw [List.filter_append]
  have hone : List.filter (fun e => decide (now < e.2.2 + sessionExpiryMs))
      [(sid, body, created)] = [(sid, body, created)] := by
    simp [hlive]
  rw [hone, List.find?_append]
  have hnone : (List.filter (fun e => decide (now < e.2.2 + sessionExpiryMs)) store).find?
      (fun e => e.1 == sid) = none := by
    rw [List.find?_eq_none]
    intro e he
    have := hfresh e (List.mem_filter.mp he).1
    simpa using this
  rw [hnone]
  simp

/-- C10: the stream endpoint deletes the stored session payload before doing
anything else, so for any sid at most one open succeeds: a second open with
the same sid, an open with an unknown sid, and an open after the 120-second
expiry all emit `bad_request` and end without the handler ever reaching the
upstream provider; while a fresh, valid, unexpired session does stream once. -/
theorem chat_session_single_use (store : SessionStore) (now now2 : Nat) (sid : String) :
    ((streamGet store now sid).1 = storeDelete sid store) ∧
    (∀ e ∈ (streamGet store now sid).1, e.1 ≠ sid) ∧
    ((streamGet (streamGet store now sid).1 now2 sid).2 = .badRequest) ∧
    (contactsUpstream (streamGet (streamGet store now sid).1 now2 sid).2 = false) ∧
    (storeGet now sid store = none → (streamGet store now sid).2 = .badRequest ∧
        contactsUpstream (streamGet store now sid).2 = false) ∧
    ((∀ b t, (sid, b, t) ∈ store → now ≥ t + sessionExpiryMs) →
        (streamGet store now sid).2 = .badRequest) ∧
    (∀ body : ChatBody, validChatBody body = true → sid ≠ "" →
        (∀ e ∈ store, e.1 ≠ sid) → now2 < now + sessionExpiryMs →
        (sessionPost store now sid body).2 = .created sid ∧
        (streamGet (sessionPost store now sid body).1 now2 sid).2 = .proceed body) := by
  have hfst : ∀ (st : SessionStore) (n : Nat),
      (streamGet st n sid).1 = storeDelete sid st := by
    intro st n
    unfold streamGet
    cases (if sid = "" then none else storeGet n sid st) with
    | none => rfl
    | some b =>
      by_cases hv : validChatBody b
      · simp [hv]
      · simp [hv]
  have hbadOfNone : ∀ (st : SessionStore) (n : Nat),
      (if sid = "" then none else storeGet n sid st) = none →
      (streamGet st n sid).2 = .badRequest := by
    intro st n h
    unfold streamGet
    rw [h]
  refine ⟨hfst store now, ?_, ?_, ?_, ?_, ?_, ?_⟩
  · rw [hfst store now]
    exact storeDelete_not_mem sid store
  · apply hbadOfNone
    rw [hfst store now]
    by_cases hs : sid = ""
    · simp [hs]
    · simp only [hs, if_false]
      exact storeGet_delete_none now2 sid store
  · rw [hbadOfNone _ _ ?_]
    · rfl
    · rw [hfst store now]
      by_cases hs : sid = ""
      · simp [hs]
      · simp only [hs, if_false]
        exact storeGet_delete_none now2 sid store
  · intro hnone
    have hbad : (streamGet store now sid).2 = .badRequest := by
      apply hbadOfNone
      by_cases hs : sid = ""
      · simp [hs]
      · simp [hs, hnone]
    exact ⟨hbad, by rw [hbad]; rfl⟩
  · intro hexp
    apply hbadOfNone
    rw [storeGet_expired now sid store hexp]
    simp
  · intro body hvalid hsid hfresh hlive
    have hpost : sessionPost store now sid body
        = (store ++ [(sid, body, now)], .created sid) := by
      unfold sessionPost
      rw [hvalid]
      simp
    refine ⟨by rw [hpost], ?_⟩
    rw [hpost]
    unfold streamGet
    rw [if_neg hsid, storeGet_append_fresh now2 sid store body now hfresh hlive]
    simp [hvalid]

/-- Witness for C10: a concrete session created at 1000 ms streams once at
2000 ms. -/
theorem chat_session_single_use_witness :
    (sessionPost [] 1000 "sid-1" bodyW).2 = .created "sid-1" ∧
    (streamGet (sessionPost [] 1000 "sid-1" bodyW).1 2000 "sid-1").2 = .proceed bodyW := by
  have h := (chat_session_single_use [] 1000 2000 "sid-1").2.2.2.2.2.2 bodyW
    (by decide) (by decide) (by decide) (by decide)
  exact h

end GMClient
